import Mathlib

/-!
A verification development of the Amber electricity-pricing client

The file embeds `amber.go` (package `amber`) shallowly in Lean.

* Go slices are lists, indices and counters are natural numbers.
* A Go result pair `(value, error)` is an `Except error value`: `.error e`
  stands for `(nil, e)` and `.ok v` for `(v, nil)`.
* The wall clock and the HTTP transport are the outside world: they are an
  explicit `World` that every operation receives and returns.  The world
  also records the requests that were handed to the transport.
* `encoding/json` and `net/url` are standard-library code: what they answer
  on a given text is a parameter (`Std`).
* `sort.Slice` is modelled after the Go standard library (`sort/zsortfunc.go`,
  pattern-defeating quicksort, Go 1.19 and later): loops are recursions on a
  loop counter, the data is passed explicitly.
-/

namespace amber

/-! ## Package `sort` of the standard library -/

namespace sort

variable {α : Type}

/-- Go `data.Less(i, j)` of the `lessSwap` that `Slice` builds: `less` is the
closure of the caller, read against the current contents of the slice.  An
index outside the slice, on which Go panics, gives `false` here. -/
def Less (less : α → α → Bool) (d : List α) (i j : Nat) : Bool :=
  match d[i]?, d[j]? with
  | some x, some y => less x y
  | _, _ => false

/-- Go `data.Swap(i, j)`: exchange the elements at `i` and `j`.  With an index
outside the slice, on which Go panics, the data is left as it is. -/
def Swap (d : List α) (i j : Nat) : List α :=
  match d[i]?, d[j]? with
  | some x, some y => (d.set i y).set j x
  | _, _ => d

/-- Inner loop of `insertionSort_func`:
`for j := i; j > a && data.Less(j, j-1); j-- { data.Swap(j, j-1) }`. -/
def insertionSort_inner (less : α → α → Bool) (a : Nat) (d : List α) : Nat → List α
  | 0 => d
  | j + 1 =>
    if a < j + 1 && Less less d (j + 1) j then
      insertionSort_inner less a (Swap d (j + 1) j) j
    else d

/-- Outer loop of `insertionSort_func`: `for i := a + 1; i < b; i++`. -/
def insertionSort_outer (less : α → α → Bool) (a b : Nat) : Nat → Nat → List α → List α
  | 0, _, d => d
  | fuel + 1, i, d =>
    if i < b then
      insertionSort_outer less a b fuel (i + 1) (insertionSort_inner less a d i)
    else d

/-- Go `insertionSort_func(data, a, b)`: sorts `data[a:b]` by insertion. -/
def insertionSort_func (less : α → α → Bool) (d : List α) (a b : Nat) : List α :=
  insertionSort_outer less a b b (a + 1) d

/-- Loop of `siftDown_func`, `root` being the loop variable. -/
def siftDown_loop (less : α → α → Bool) (hi first : Nat) : Nat → List α → Nat → List α
  | 0, d, _ => d
  | fuel + 1, d, root =>
    let child := 2 * root + 1
    if child ≥ hi then d
    else
      let child :=
        if child + 1 < hi && Less less d (first + child) (first + child + 1) then child + 1
        else child
      if !Less less d (first + root) (first + child) then d
      else siftDown_loop less hi first fuel (Swap d (first + root) (first + child)) child

/-- Go `siftDown_func(data, lo, hi, first)`: restores the heap property on
`data[first+lo : first+hi]` with `lo` as the root. -/
def siftDown_func (less : α → α → Bool) (d : List α) (lo hi first : Nat) : List α :=
  siftDown_loop less hi first hi d lo

/-- First loop of `heapSort_func`: `for i := (hi - 1) / 2; i >= 0; i--`; the
argument counts the iterations left, the current `i` is one less. -/
def heapSort_build (less : α → α → Bool) (hi first : Nat) : Nat → List α → List α
  | 0, d => d
  | i + 1, d => heapSort_build less hi first i (siftDown_func less d i hi first)

/-- Second loop of `heapSort_func`: `for i := hi - 1; i >= 0; i--`; the
argument counts the iterations left, the current `i` is one less. -/
def heapSort_pop (less : α → α → Bool) (first : Nat) : Nat → List α → List α
  | 0, d => d
  | i + 1, d =>
    heapSort_pop less first i (siftDown_func less (Swap d first (first + i)) 0 i first)

/-- Go `heapSort_func(data, a, b)`. -/
def heapSort_func (less : α → α → Bool) (d : List α) (a b : Nat) : List α :=
  let first := a
  let hi := b - a
  heapSort_pop less first hi (heapSort_build less hi first ((hi - 1) / 2 + 1) d)

/-- The `sortedHint` constants. -/
inductive sortedHint where
  | unknownHint
  | increasingHint
  | decreasingHint
deriving DecidableEq, Repr

/-- Go `order2_func(data, a, b, swaps)`: the two indices in order, and the
updated swap counter. -/
def order2_func (less : α → α → Bool) (d : List α) (a b swaps : Nat) : Nat × Nat × Nat :=
  if Less less d b a then (b, a, swaps + 1) else (a, b, swaps)

/-- Go `median_func(data, a, b, c, swaps)`: index of the median of three, and
the updated swap counter. -/
def median_func (less : α → α → Bool) (d : List α) (a b c swaps : Nat) : Nat × Nat :=
  let (a, b, swaps) := order2_func less d a b swaps
  let (b, _, swaps) := order2_func less d b c swaps
  let (_, b, swaps) := order2_func less d a b swaps
  (b, swaps)

/-- Go `medianAdjacent_func(data, a, swaps)`. -/
def medianAdjacent_func (less : α → α → Bool) (d : List α) (a swaps : Nat) : Nat × Nat :=
  median_func less d (a - 1) a (a + 1) swaps

/-- Go `choosePivot_func(data, a, b)`: the pivot index and a hint. -/
def choosePivot_func (less : α → α → Bool) (d : List α) (a b : Nat) : Nat × sortedHint :=
  let shortestNinther := 50
  let maxSwaps := 4 * 3
  let l := b - a
  let swaps := 0
  let i := a + l / 4 * 1
  let j := a + l / 4 * 2
  let k := a + l / 4 * 3
  let (j, swaps) :=
    if l ≥ 8 then
      let (i, j, k, swaps) :=
        if l ≥ shortestNinther then
          let (i, swaps) := medianAdjacent_func less d i swaps
          let (j, swaps) := medianAdjacent_func less d j swaps
          let (k, swaps) := medianAdjacent_func less d k swaps
          (i, j, k, swaps)
        else (i, j, k, swaps)
      median_func less d i j k swaps
    else (j, swaps)
  if swaps = 0 then (j, sortedHint.increasingHint)
  else if swaps = maxSwaps then (j, sortedHint.decreasingHint)
  else (j, sortedHint.unknownHint)

/-- Loop of `reverseRange_func`: `for i < j { data.Swap(i, j); i++; j-- }`. -/
def reverseRange_loop : Nat → List α → Nat → Nat → List α
  | 0, d, _, _ => d
  | fuel + 1, d, i, j =>
    if i < j then reverseRange_loop fuel (Swap d i j) (i + 1) (j - 1) else d

/-- Go `reverseRange_func(data, a, b)`. -/
def reverseRange_func (d : List α) (a b : Nat) : List α :=
  reverseRange_loop b d a (b - 1)

/-- Go `bits.Len(x)`: the number of bits needed to write `x`; the first
argument bounds the number of halvings. -/
def bitsLen_loop : Nat → Nat → Nat
  | 0, _ => 0
  | fuel + 1, x => if x = 0 then 0 else bitsLen_loop fuel (x / 2) + 1

/-- Go `bits.Len(uint(x))`. -/
def bitsLen (x : Nat) : Nat := bitsLen_loop x x

/-- Go `nextPowerOfTwo(length)`: `1 << bits.Len(uint(length))`. -/
def nextPowerOfTwo (length : Nat) : Nat := 1 <<< bitsLen length

/-- Go `(*xorshift).Next()`: one step of the 64-bit xorshift generator, on
`uint64` (shifts to the left are cut to 64 bits).  The shift amounts are
13, 7, 17 (Go 1.19 and 1.20 have 13, 17, 5); no property proved below
depends on them. -/
def xorshift_Next (r : Nat) : Nat :=
  let r := r ^^^ ((r <<< 13) % 2 ^ 64)
  let r := r ^^^ (r >>> 7)
  let r := r ^^^ ((r <<< 17) % 2 ^ 64)
  r

/-- Loop of `breakPatterns_func`: `for i := 0; i < 3; i++`; the three
elements at `idx`, `idx + 1` and `idx + 2` are each exchanged with an element
of the range picked by the generator. -/
def breakPatterns_loop (a length modulus idx : Nat) : Nat → Nat → Nat → List α → List α
  | 0, _, _, d => d
  | fuel + 1, i, random, d =>
    if i < 3 then
      let random := xorshift_Next random
      let other := random &&& (modulus - 1)
      let other := if other ≥ length then other - length else other
      breakPatterns_loop a length modulus idx fuel (i + 1) random (Swap d (idx + i) (a + other))
    else d

/-- Go `breakPatterns_func(data, a, b)`: scatters three elements around the
middle of `data[a:b]`. -/
def breakPatterns_func (d : List α) (a b : Nat) : List α :=
  let length := b - a
  if length ≥ 8 then
    let random := length
    let modulus := nextPowerOfTwo length
    let idx := a + (length / 4) * 2 - 1
    breakPatterns_loop a length modulus idx 3 0 random d
  else d

/-- The scan `for i < b && !data.Less(i, i-1) { i++ }` of
`partialInsertionSort_func`. -/
def partialInsertionSort_scan (less : α → α → Bool) (d : List α) (b : Nat) : Nat → Nat → Nat
  | 0, i => i
  | fuel + 1, i =>
    if i < b && !Less less d i (i - 1) then partialInsertionSort_scan less d b fuel (i + 1)
    else i

/-- The loop `for j := i - 1; j >= 1; j--` of `partialInsertionSort_func`
that shifts the smaller element to the left. -/
def partialInsertionSort_left (less : α → α → Bool) (d : List α) : Nat → List α
  | 0 => d
  | j + 1 =>
    if j + 1 ≥ 1 then
      if !Less less d (j + 1) j then d
      else partialInsertionSort_left less (Swap d (j + 1) j) j
    else d

/-- The loop `for j := i + 1; j < b; j++` of `partialInsertionSort_func`
that shifts the greater element to the right. -/
def partialInsertionSort_right (less : α → α → Bool) (b : Nat) : Nat → List α → Nat → List α
  | 0, d, _ => d
  | fuel + 1, d, j =>
    if j < b then
      if !Less less d j (j - 1) then d
      else partialInsertionSort_right less b fuel (Swap d j (j - 1)) (j + 1)
    else d

/-- Loop `for j := 0; j < maxSteps; j++` of `partialInsertionSort_func`; the
first argument counts the steps left. -/
def partialInsertionSort_loop (less : α → α → Bool) (a b : Nat) :
    Nat → List α → Nat → List α × Bool
  | 0, d, _ => (d, false)
  | steps + 1, d, i =>
    let shortestShifting := 50
    let i := partialInsertionSort_scan less d b b i
    if i = b then (d, true)
    else if b - a < shortestShifting then (d, false)
    else
      let d := Swap d i (i - 1)
      let d := if i - a ≥ 2 then partialInsertionSort_left less d (i - 1) else d
      let d := if b - i ≥ 2 then partialInsertionSort_right less b b d (i + 1) else d
      partialInsertionSort_loop less a b steps d i

/-- Go `partialInsertionSort_func(data, a, b)`: partially sorts `data[a:b]`;
the flag tells whether the range is sorted at the end. -/
def partialInsertionSort_func (less : α → α → Bool) (d : List α) (a b : Nat) : List α × Bool :=
  let maxSteps := 5
  partialInsertionSort_loop less a b maxSteps d (a + 1)

/-- The scan `for i <= j && !data.Less(a, i) { i++ }` of `partitionEqual_func`. -/
def partitionEqual_up (less : α → α → Bool) (d : List α) (a j : Nat) : Nat → Nat → Nat
  | 0, i => i
  | fuel + 1, i =>
    if i ≤ j && !Less less d a i then partitionEqual_up less d a j fuel (i + 1) else i

/-- The scan `for i <= j && data.Less(a, j) { j-- }` of `partitionEqual_func`. -/
def partitionEqual_down (less : α → α → Bool) (d : List α) (a i : Nat) : Nat → Nat
  | 0 => 0
  | j + 1 =>
    if i ≤ j + 1 && Less less d a (j + 1) then partitionEqual_down less d a i j else j + 1

/-- The `for` loop of `partitionEqual_func`. -/
def partitionEqual_loop (less : α → α → Bool) (a : Nat) : Nat → List α → Nat → Nat → List α × Nat
  | 0, d, i, _ => (d, i)
  | fuel + 1, d, i, j =>
    let i := partitionEqual_up less d a j (j + 1) i
    let j := partitionEqual_down less d a i j
    if i > j then (d, i)
    else partitionEqual_loop less a fuel (Swap d i j) (i + 1) (j - 1)

/-- Go `partitionEqual_func(data, a, b, pivot)`: splits `data[a:b]` into the
elements equal to the pivot and the elements greater than it. -/
def partitionEqual_func (less : α → α → Bool) (d : List α) (a b pivot : Nat) : List α × Nat :=
  let d := Swap d a pivot
  partitionEqual_loop less a b d (a + 1) (b - 1)

/-- The scan `for i <= j && data.Less(i, a) { i++ }` of `partition_func`. -/
def partition_up (less : α → α → Bool) (d : List α) (a j : Nat) : Nat → Nat → Nat
  | 0, i => i
  | fuel + 1, i =>
    if i ≤ j && Less less d i a then partition_up less d a j fuel (i + 1) else i

/-- The scan `for i <= j && !data.Less(j, a) { j-- }` of `partition_func`. -/
def partition_down (less : α → α → Bool) (d : List α) (a i : Nat) : Nat → Nat
  | 0 => 0
  | j + 1 =>
    if i ≤ j + 1 && !Less less d (j + 1) a then partition_down less d a i j else j + 1

/-- The `for` loop of `partition_func`. -/
def partition_loop (less : α → α → Bool) (a : Nat) : Nat → List α → Nat → Nat → List α × Nat
  | 0, d, _, j => (d, j)
  | fuel + 1, d, i, j =>
    let i := partition_up less d a j (j + 1) i
    let j := partition_down less d a i j
    if i > j then (d, j)
    else partition_loop less a fuel (Swap d i j) (i + 1) (j - 1)

/-- Go `partition_func(data, a, b, pivot)`: the data, the new place of the
pivot, and whether the range was already partitioned. -/
def partition_func (less : α → α → Bool) (d : List α) (a b pivot : Nat) :
    List α × Nat × Bool :=
  let d := Swap d a pivot
  let i := a + 1
  let j := b - 1
  let i := partition_up less d a j (j + 1) i
  let j := partition_down less d a i j
  if i > j then (Swap d j a, j, true)
  else
    let d := Swap d i j
    let (d, j) := partition_loop less a b d (i + 1) (j - 1)
    (Swap d j a, j, false)

/-- Go `pdqsort_func(data, a, b, limit)`.  The `for` loop and the recursive call
are both calls of this function; `wasBalanced` and `wasPartitioned` are the
two flags of the loop, `true` on entry.  The first argument bounds the depth of
the calls; `none` is returned when it runs out. -/
def pdqsort_func (less : α → α → Bool) :
    Nat → List α → Nat → Nat → Nat → Bool → Bool → Option (List α)
  | 0, _, _, _, _, _, _ => none
  | fuel + 1, d, a, b, limit, wasBalanced, wasPartitioned =>
    let maxInsertion := 12
    let length := b - a
    if length ≤ maxInsertion then some (insertionSort_func less d a b)
    else if limit = 0 then some (heapSort_func less d a b)
    else
      let d := if !wasBalanced then breakPatterns_func d a b else d
      let limit := if !wasBalanced then limit - 1 else limit
      let ph := choosePivot_func less d a b
      let decreasing := decide (ph.2 = sortedHint.decreasingHint)
      let d := if decreasing then reverseRange_func d a b else d
      let pivot := if decreasing then (b - 1) - (ph.1 - a) else ph.1
      let hint := if decreasing then sortedHint.increasingHint else ph.2
      let ps :=
        if wasBalanced && wasPartitioned && decide (hint = sortedHint.increasingHint) then
          partialInsertionSort_func less d a b
        else (d, false)
      if ps.2 then some ps.1
      else
        let d := ps.1
        if decide (a > 0) && !Less less d (a - 1) pivot then
          let pe := partitionEqual_func less d a b pivot
          pdqsort_func less fuel pe.1 pe.2 b limit wasBalanced wasPartitioned
        else
          let pt := partition_func less d a b pivot
          let d := pt.1
          let mid := pt.2.1
          let alreadyPartitioned := pt.2.2
          let leftLen := mid - a
          let rightLen := b - mid
          let balanceThreshold := length / 8
          if leftLen < rightLen then
            match pdqsort_func less fuel d a mid limit true true with
            | none => none
            | some d =>
              pdqsort_func less fuel d (mid + 1) b limit
                (decide (leftLen ≥ balanceThreshold)) alreadyPartitioned
          else
            match pdqsort_func less fuel d (mid + 1) b limit true true with
            | none => none
            | some d =>
              pdqsort_func less fuel d a mid limit
                (decide (rightLen ≥ balanceThreshold)) alreadyPartitioned

/-- Go `sort.Slice(x, less)`: `pdqsort_func(lessSwap{less, swap}, 0, length,
bits.Len(uint(length)))`.  The depth bound `length + 1` is never used up
(`pdqsort_func_isSome`). -/
def Slice (x : List α) (less : α → α → Bool) : List α :=
  let length := x.length
  let limit := bitsLen length
  (pdqsort_func less (length + 1) x 0 length limit true true).getD x

/-! ## Vocabulary for the properties of `sort.Slice` -/

/-- The key of the element at index `i` of `d` (zero outside `d`). -/
def keyAt (key : α → Int) (d : List α) (i : Nat) : Int :=
  match d[i]? with
  | some x => key x
  | none => 0

/-- The range `d[a:b]` is in non-decreasing order of keys. -/
def SortedRange (key : α → Int) (d : List α) (a b : Nat) : Prop :=
  ∀ p q, a ≤ p → p ≤ q → q < b → keyAt key d p ≤ keyAt key d q

/-- The list `r` is `d` with the elements of the range `[a, b)` rearranged:
same length, same elements outside the range, every property shared by the
elements of the range still shared by them, and the same elements overall. -/
def Shuffle (a b : Nat) (d r : List α) : Prop :=
  r.length = d.length ∧
  (∀ k, k < a ∨ b ≤ k → r[k]? = d[k]?) ∧
  (∀ P : α → Prop, (∀ k x, a ≤ k → k < b → d[k]? = some x → P x) →
    ∀ k x, a ≤ k → k < b → r[k]? = some x → P x) ∧
  r.Perm d

/-- Every key of `d[a:b]` is at least the key just before the range, when
there is one. -/
def LeftBound (key : α → Int) (d : List α) (a b : Nat) : Prop :=
  0 < a → ∀ k, a ≤ k → k < b → keyAt key d (a - 1) ≤ keyAt key d k

/-- The key function of `d[first:]`, as the heap sort sees it. -/
def heapKey (key : α → Int) (first : Nat) (d : List α) (k : Nat) : Int :=
  keyAt key d (first + k)

/-- Heap property at node `k` of a heap of size `hi`: no child of `k` has a
greater key than `k`. -/
def HeapAt (f : Nat → Int) (hi k : Nat) : Prop :=
  (2 * k + 1 < hi → f (2 * k + 1) ≤ f k) ∧ (2 * k + 1 + 1 < hi → f (2 * k + 1 + 1) ≤ f k)

/-- The entries of `d` with a given key, in their order in `d`. -/
def withKey (key : α → Int) (t : Int) (d : List α) : List α :=
  d.filter (fun x => decide (key x = t))

end sort

/-! ## Package `time` of the standard library -/

namespace time

/-- A `time.Duration`: a count of nanoseconds. -/
abbrev Duration := Int

/-- Go `time.Hour`. -/
def Hour : Duration := 3600 * 1000000000

/-- Go `time.Minute`. -/
def Minute : Duration := 60 * 1000000000

/-- A `*time.Location`: the offset (seconds east of UTC) in force at first,
and the later changes of offset, each with the Unix second it starts at, in
increasing order. -/
structure Location where
  offset : Int
  tx : List (Int × Int)
deriving DecidableEq, Repr

/-- Go `time.UTC`. -/
def UTC : Location := { offset := 0, tx := [] }

/-- The offset a location has at a Unix second. -/
def Location.lookup (l : Location) (sec : Int) : Int :=
  l.tx.foldl (fun off t => if t.1 ≤ sec then t.2 else off) l.offset

/-- A `time.Time` without monotonic reading: an instant, in nanoseconds
since the Unix epoch, and the location it is shown in. -/
structure Time where
  nanos : Int
  loc : Location
deriving DecidableEq, Repr

/-- Go `t.Before(u)`: the instant `t` is before the instant `u`. -/
def Time.Before (t u : Time) : Bool := decide (t.nanos < u.nanos)

/-- Go `t.Add(d)`. -/
def Time.Add (t : Time) (d : Duration) : Time := { t with nanos := t.nanos + d }

/-- The civil date (year, month, day) of a count of days since 1970-01-01,
in the proleptic Gregorian calendar. -/
def civil (days : Int) : Int × Int × Int :=
  let z := days + 719468
  let era := z / 146097
  let doe := z - era * 146097
  let yoe := (doe - doe / 1460 + doe / 36524 - doe / 146096) / 365
  let y := yoe + era * 400
  let doy := doe - (365 * yoe + yoe / 4 - yoe / 100)
  let mp := (5 * doy + 2) / 153
  let d := doy - (153 * mp + 2) / 5 + 1
  let m := if mp < 10 then mp + 3 else mp - 9
  (if m ≤ 2 then y + 1 else y, m, d)

/-- Go `t.Date()`: year, month and day of `t` in its location. -/
def Time.Date (t : Time) : Int × Int × Int :=
  let sec := t.nanos / 1000000000
  civil ((sec + t.loc.lookup sec) / 86400)

/-- Go `appendInt(b, x, width)`: `x` in decimal, zero-padded to `width` digits,
after a minus sign when negative. -/
def appendInt (x : Int) (width : Nat) : List Char :=
  let ds := Nat.toDigits 10 x.natAbs
  let ds := List.replicate (width - ds.length) '0' ++ ds
  if x < 0 then '-' :: ds else ds

/-- The layout elements `2006`, `01` and `02` of `Format`; every other
character of the layout is copied. -/
def formatChars (date : Int × Int × Int) : List Char → List Char
  | '2' :: '0' :: '0' :: '6' :: rest => appendInt date.1 4 ++ formatChars date rest
  | '0' :: '1' :: rest => appendInt date.2.1 2 ++ formatChars date rest
  | '0' :: '2' :: rest => appendInt date.2.2 2 ++ formatChars date rest
  | c :: rest => c :: formatChars date rest
  | [] => []

/-- Go `t.Format(layout)`, for a layout made of the year, month and day
elements `2006`, `01`, `02` and of separators. -/
def Time.Format (t : Time) (layout : String) : String :=
  String.mk (formatChars t.Date layout.data)

end time

open time (Time)

/-! ## Package `amber` -/

/-- The constant `BaseURLV1`. -/
def BaseURLV1 : String := "https://api.amber.com.au/v1"

/-- The constant `yyyy_mm_dd`. -/
def yyyy_mm_dd : String := "2006-01-02"

/-- A Go `error`: the ones this package makes with `errors.New` and
`fmt.Errorf`, and the ones other packages hand to it. -/
inductive error where
  | errorString (s : String)
  | foreign (pkg : String) (text : String)
deriving DecidableEq, Repr

/-- The method `Error()`: the text of an error. -/
def error.Error : error → String
  | .errorString s => s
  | .foreign _ text => text

/-- Go `errors.New(text)`. -/
def errors.New (text : String) : error := .errorString text

/-- Go `fmt.Sprintf("%d", n)`. -/
def fmt.d (n : Int) : String := toString n

/-- A `context.Context` (never nil). -/
structure Context where
  id : Nat
deriving DecidableEq, Repr

/-- Go `context.Background()`. -/
def context.Background : Context := { id := 0 }

/-- An `*http.Request`: method, URL text, header and context. -/
structure Request where
  Method : String
  URL : String
  Header : List (String × String)
  ctx : Context
deriving DecidableEq, Repr

/-- Go `req.Header.Set(key, value)`. -/
def Request.Header_Set (req : Request) (key value : String) : Request :=
  { req with Header := req.Header.filter (fun kv => kv.1 != key) ++ [(key, value)] }

/-- Go `req.WithContext(ctx)`. -/
def Request.WithContext (req : Request) (ctx : Context) : Request := { req with ctx := ctx }

/-- An `*http.Response`: status code and body text. -/
structure Response where
  StatusCode : Int
  Body : String
deriving DecidableEq, Repr

/-- Go `http.StatusOK`. -/
def http.StatusOK : Int := 200

/-- Go `http.StatusBadRequest`. -/
def http.StatusBadRequest : Int := 400

/-- An `*http.Client`, by its one configured field. -/
structure http.Client where
  Timeout : time.Duration
deriving DecidableEq, Repr

/-- The type `Client`. -/
structure Client where
  BaseURL : String
  apiKey : String
  HTTPClient : http.Client
deriving DecidableEq, Repr

/-- The type `errorResponse`. -/
structure errorResponse where
  Message : String
deriving DecidableEq, Repr

/-- The type `Site`. -/
structure Site where
  Id : String
  Nmi : String
deriving DecidableEq, Repr

/-- A `float64`, by its bit pattern; the package only stores such values. -/
structure float64 where
  bits : Nat
deriving DecidableEq, Repr

/-- The type `Price`. -/
structure Price where
  Type_ : String
  Date : String
  Duration : Int
  StartTime : Time
  EndTime : Time
  NemTime : String
  PerKwh : float64
  Renewables : float64
  SpotPerKwh : float64
  ChannelType : String
  SpikeStatus : String
  Estimate : Bool
deriving DecidableEq, Repr

/-- What the standard-library parsers answer: `url.Parse` inside
`http.NewRequest` (its error, if any), and `(*json.Decoder).Decode` on a
body text for each of the three target types. -/
structure Std where
  urlParse : String → Option error
  decodeErrorResponse : String → Except error errorResponse
  decodeSites : String → Except error (List Site)
  decodePrices : String → Except error (List Price)

/-- The world outside the package: the wall clock (`clock n` is what the
read number `n` of `time.Now()` returns, `reads` counts the reads so far),
the answer of the HTTP transport to a request, and the requests handed to
the transport so far. -/
structure World where
  clock : Nat → Time
  reads : Nat
  transport : Request → Except error Response
  sent : List Request

/-- Go `time.Now()`. -/
def time.Now (w : World) : Time × World :=
  (w.clock w.reads, { w with reads := w.reads + 1 })

/-- Go `http.NewRequest(method, url, nil)`. -/
def http.NewRequest (std : Std) (method url : String) : Except error Request :=
  match std.urlParse url with
  | some err => .error err
  | none => .ok { Method := method, URL := url, Header := [], ctx := context.Background }

/-- Go `c.Do(req)` of an `*http.Client`: the request goes to the transport. -/
def http.Client.Do (_c : http.Client) (req : Request) (w : World) :
    Except error Response × World :=
  (w.transport req, { w with sent := w.sent ++ [req] })

/-- Go `NewClient(apiKey)`. -/
def NewClient (apiKey : String) : Client :=
  { BaseURL := BaseURLV1, apiKey := apiKey, HTTPClient := { Timeout := time.Minute } }

/-- Go `c.sendRequest(req, v)`; `decodeV` is the decoding into the type of `v`,
and the value decoded into `v` is returned. -/
def Client.sendRequest {α : Type} (std : Std) (c : Client) (decodeV : String → Except error α)
    (req : Request) (w : World) : Except error α × World :=
  let req := req.Header_Set "Content-Type" "application/json; charset=utf-8"
  let req := req.Header_Set "Accept" "application/json; charset=utf-8"
  let req := req.Header_Set "Authorization" ("Bearer " ++ c.apiKey)
  match c.HTTPClient.Do req w with
  | (.error err, w) => (.error err, w)
  | (.ok res, w) =>
    if res.StatusCode < http.StatusOK ∨ res.StatusCode ≥ http.StatusBadRequest then
      match std.decodeErrorResponse res.Body with
      | .ok errRes => (.error (errors.New errRes.Message), w)
      | .error _ =>
        (.error (errors.New ("unknown error, status code: " ++ fmt.d res.StatusCode)), w)
    else
      match decodeV res.Body with
      | .error err => (.error err, w)
      | .ok v => (.ok v, w)

/-- Go `c.GetSites(ctx)`. -/
def Client.GetSites (std : Std) (c : Client) (ctx : Context) (w : World) :
    Except error (List Site) × World :=
  match http.NewRequest std "GET" (c.BaseURL ++ "/sites") with
  | .error err => (.error err, w)
  | .ok req =>
    let req := req.WithContext ctx
    match c.sendRequest std std.decodeSites req w with
    | (.error err, w) => (.error err, w)
    | (.ok res, w) => (.ok res, w)

/-- Go `c.GetCurrentPrices(ctx, site)`. -/
def Client.GetCurrentPrices (std : Std) (c : Client) (ctx : Context) (site : Site) (w : World) :
    Except error (List Price) × World :=
  match http.NewRequest std "GET"
      (c.BaseURL ++ "/sites/" ++ site.Id ++ "/prices/current?resolution=30") with
  | .error err => (.error err, w)
  | .ok req =>
    let req := req.WithContext ctx
    match c.sendRequest std std.decodePrices req w with
    | (.error err, w) => (.error err, w)
    | (.ok res, w) => (.ok res, w)

/-- The test of the filter loop of `GetForecastGeneralPrices`. -/
def isGeneralForecast (price : Price) : Bool :=
  price.Type_ == "ForecastInterval" && price.ChannelType == "general"

/-- The `less` closure handed to `sort.Slice`, on the elements themselves. -/
def startsBefore (x y : Price) : Bool := x.StartTime.Before y.StartTime

/-- Go `c.GetForecastGeneralPrices(ctx, site)`. -/
def Client.GetForecastGeneralPrices (std : Std) (c : Client) (ctx : Context) (site : Site)
    (w : World) : Except error (List Price) × World :=
  let (now1, w) := time.Now w
  let todayDate := now1.Format yyyy_mm_dd
  let (now2, w) := time.Now w
  let tomorrowDate := (now2.Add (time.Hour * 24)).Format yyyy_mm_dd
  match http.NewRequest std "GET"
      (c.BaseURL ++ "/sites/" ++ site.Id ++ "/prices?resolution=30&startDate=" ++ todayDate
        ++ "&endDate=" ++ tomorrowDate) with
  | .error err => (.error err, w)
  | .ok req =>
    let req := req.WithContext ctx
    match c.sendRequest std std.decodePrices req w with
    | (.error err, w) => (.error err, w)
    | (.ok res, w) =>
      let generalForecastPrices :=
        res.foldl (fun acc price => if isGeneralForecast price then acc ++ [price] else acc) []
      (.ok (sort.Slice generalForecastPrices startsBefore), w)

/-- Between the worlds `w` and `post` exactly one request was handed to the
transport, and the transport of `w` answers it with `r`. -/
def Answered (w post : World) (r : Except error Response) : Prop :=
  ∃ req, post.sent = w.sent ++ [req] ∧ w.transport req = r

/-- The request as `sendRequest` hands it to the transport: `req` with the
three headers set. -/
def Client.outgoing (c : Client) (req : Request) : Request :=
  ((req.Header_Set "Content-Type" "application/json; charset=utf-8").Header_Set
    "Accept" "application/json; charset=utf-8").Header_Set "Authorization" ("Bearer " ++ c.apiKey)

/-- The request an operation hands to the transport for the URL text `url`:
what `http.NewRequest("GET", url, nil)` makes, with the context of the caller
and the three headers of `sendRequest`. -/
def Client.request (c : Client) (ctx : Context) (url : String) : Request :=
  c.outgoing { Method := "GET", URL := url, Header := [], ctx := ctx }

/-- The URL text that `GetForecastGeneralPrices` builds for a site, when the
two clock reads of the call return `now1` and `now2`. -/
def Client.forecastURL (c : Client) (site : Site) (now1 now2 : Time) : String :=
  c.BaseURL ++ "/sites/" ++ site.Id ++ "/prices?resolution=30&startDate="
    ++ now1.Format yyyy_mm_dd ++ "&endDate=" ++ (now2.Add (time.Hour * 24)).Format yyyy_mm_dd

/-- What `sendRequest` makes of the answer of the transport `r`. -/
def outcome {α : Type} (std : Std) (decodeV : String → Except error α)
    (r : Except error Response) : Except error α :=
  match r with
  | .error err => .error err
  | .ok res =>
    if res.StatusCode < 200 ∨ res.StatusCode ≥ 400 then
      match std.decodeErrorResponse res.Body with
      | .ok errRes => .error (errors.New errRes.Message)
      | .error _ => .error (errors.New ("unknown error, status code: " ++ toString res.StatusCode))
    else decodeV res.Body

/-- Equality of results is decidable. -/
instance instDecidableEqExcept {ε α : Type} [DecidableEq ε] [DecidableEq α] :
    DecidableEq (Except ε α)
  | .ok a, .ok b => if h : a = b then isTrue (by rw [h]) else isFalse (fun h2 => by cases h2; exact h rfl)
  | .error a, .error b =>
    if h : a = b then isTrue (by rw [h]) else isFalse (fun h2 => by cases h2; exact h rfl)
  | .ok _, .error _ => isFalse (fun h => by cases h)
  | .error _, .ok _ => isFalse (fun h => by cases h)

/-! ## Concrete inputs -/

/-- The client of the examples. -/
def demoClient : Client := NewClient "psk_example"

/-- The site of the examples. -/
def demoSite : Site := { Id := "s1", Nmi := "n1" }

/-- The body of an error response, as JSON text. -/
def invalidTokenBody : String := "\x7b\"message\":\"invalid token\"\x7d"

/-- The body of a response with two sites, as JSON text. -/
def twoSitesBody : String :=
  "[\x7b\"id\":\"s1\",\"nmi\":\"n1\"\x7d,\x7b\"id\":\"s2\",\"nmi\":\"n2\"\x7d]"

/-- A parser environment for the examples: every URL parses, and the two
bodies above decode to the values they spell. -/
def demoStd : Std where
  urlParse := fun _ => none
  decodeErrorResponse := fun body =>
    if body = invalidTokenBody then .ok { Message := "invalid token" }
    else .error (.foreign "json" "invalid character")
  decodeSites := fun body =>
    if body = twoSitesBody then .ok [{ Id := "s1", Nmi := "n1" }, { Id := "s2", Nmi := "n2" }]
    else .error (.foreign "json" "invalid character")
  decodePrices := fun _ => .error (.foreign "json" "invalid character")

/-- A price entry of the examples: its type, channel, tag (kept in `NemTime`)
and start second. -/
def demoPrice (type channel tag : String) (start : Int) : Price where
  Type_ := type
  Date := "2024-01-01"
  Duration := 30
  StartTime := { nanos := start * 1000000000, loc := time.UTC }
  EndTime := { nanos := (start + 1800) * 1000000000, loc := time.UTC }
  NemTime := tag
  PerKwh := { bits := 0 }
  Renewables := { bits := 0 }
  SpotPerKwh := { bits := 0 }
  ChannelType := channel
  SpikeStatus := "none"
  Estimate := true

/-- A parser environment whose price decoder yields the given array for
every body. -/
def pricesStd (prices : List Price) : Std :=
  { demoStd with decodePrices := fun _ => .ok prices }

/-- A world whose clock shows the given two readings, then the second one for
ever, and whose transport gives the same answer to every request. -/
def demoWorld (now1 now2 : Time) (answer : Except error Response) : World where
  clock := fun n => if n = 0 then now1 else now2
  reads := 0
  transport := fun _ => answer
  sent := []

/-- Noon of 2024-01-01, UTC. -/
def noon : Time := { nanos := 1704110400 * 1000000000, loc := time.UTC }

/-- The last nanosecond of 2024-01-01, UTC. -/
def beforeMidnight : Time := { nanos := 1704153599 * 1000000000 + 999999999, loc := time.UTC }

/-- The first nanosecond of 2024-01-02, UTC. -/
def afterMidnight : Time := { nanos := 1704153600 * 1000000000, loc := time.UTC }

/-- A response array of thirteen general forecast entries: twelve start at
second 1000, tagged `p0` to `p11` in this order, the last one starts at
second 0. -/
def thirteen : List Price :=
  [ demoPrice "ForecastInterval" "general" "p0" 1000,
    demoPrice "ForecastInterval" "general" "p1" 1000,
    demoPrice "ForecastInterval" "general" "p2" 1000,
    demoPrice "ForecastInterval" "general" "p3" 1000,
    demoPrice "ForecastInterval" "general" "p4" 1000,
    demoPrice "ForecastInterval" "general" "p5" 1000,
    demoPrice "ForecastInterval" "general" "p6" 1000,
    demoPrice "ForecastInterval" "general" "p7" 1000,
    demoPrice "ForecastInterval" "general" "p8" 1000,
    demoPrice "ForecastInterval" "general" "p9" 1000,
    demoPrice "ForecastInterval" "general" "p10" 1000,
    demoPrice "ForecastInterval" "general" "p11" 1000,
    demoPrice "ForecastInterval" "general" "p12" 0 ]

/-- A response array of six entries, five of them general forecasts: two
start at second 1800 (`a` before `c`), two at second 3600 (`b` before `d`)
and one at second 0. -/
def tied : List Price :=
  [ demoPrice "ForecastInterval" "general" "a" 1800,
    demoPrice "ForecastInterval" "general" "b" 3600,
    demoPrice "ForecastInterval" "feedIn" "x" 1800,
    demoPrice "ForecastInterval" "general" "c" 1800,
    demoPrice "ForecastInterval" "general" "d" 3600,
    demoPrice "ForecastInterval" "general" "e" 0 ]

/-- A response array of four entries, two of them general forecasts, out of
order. -/
def mixed : List Price :=
  [ demoPrice "ForecastInterval" "general" "late" 3600,
    demoPrice "CurrentInterval" "general" "current" 0,
    demoPrice "ForecastInterval" "feedIn" "feed" 1800,
    demoPrice "ForecastInterval" "general" "early" 1800 ]

/-! # Proofs -/

namespace sort

variable {α : Type}

/-! ## Elementary facts on `Swap` and `Less` -/

theorem Swap_length (d : List α) (i j : Nat) : (Swap d i j).length = d.length := by
  unfold Swap
  split <;> simp

theorem Swap_getElem? (d : List α) (i j k : Nat) (hi : i < d.length) (hj : j < d.length) :
    (Swap d i j)[k]? = if k = j then d[i]? else if k = i then d[j]? else d[k]? := by
  unfold Swap
  rw [List.getElem?_eq_getElem hi, List.getElem?_eq_getElem hj]
  simp only [List.getElem?_set]
  by_cases h1 : k = j
  · subst h1
    simp [hi, hj]
  · by_cases h2 : k = i
    · subst h2
      simp [hi, hj, Ne.symm h1, h1]
    · simp [h1, h2, Ne.symm h1, Ne.symm h2]

theorem cons_set_perm (t : List α) (j : Nat) (y a : α) (h : t[j]? = some y) :
    (y :: t.set j a).Perm (a :: t) := by
  induction t generalizing j with
  | nil => simp at h
  | cons b t ih =>
    cases j with
    | zero =>
      simp only [List.getElem?_cons_zero, Option.some.injEq] at h
      subst h
      simpa using List.Perm.swap a b t
    | succ j =>
      simp only [List.getElem?_cons_succ] at h
      simp only [List.set_cons_succ]
      exact (List.Perm.swap b y _).trans (((ih j h).cons b).trans (List.Perm.swap a b t))

theorem set_set_perm (d : List α) (i j : Nat) (x y : α) (hx : d[i]? = some x)
    (hy : d[j]? = some y) : ((d.set i y).set j x).Perm d := by
  induction d generalizing i j with
  | nil => simp at hx
  | cons a t ih =>
    cases i with
    | zero =>
      simp only [List.getElem?_cons_zero, Option.some.injEq] at hx
      subst hx
      cases j with
      | zero =>
        simp
      | succ j =>
        simp only [List.getElem?_cons_succ] at hy
        simpa using cons_set_perm t j y a hy
    | succ i =>
      simp only [List.getElem?_cons_succ] at hx
      cases j with
      | zero =>
        simp only [List.getElem?_cons_zero, Option.some.injEq] at hy
        subst hy
        simpa using cons_set_perm t i x a hx
      | succ j =>
        simp only [List.getElem?_cons_succ] at hy
        simpa using ih i j hx hy

theorem Swap_perm (d : List α) (i j : Nat) : (Swap d i j).Perm d := by
  unfold Swap
  split
  · rename_i x y hx hy
    exact set_set_perm d i j x y hx hy
  · exact List.Perm.refl _

/-! ## Keys -/

section keys

variable (key : α → Int) (less : α → α → Bool)

theorem keyAt_Swap (d : List α) (i j : Nat) (hi : i < d.length) (hj : j < d.length) (k : Nat) :
    keyAt key (Swap d i j) k =
      if k = j then keyAt key d i else if k = i then keyAt key d j else keyAt key d k := by
  unfold keyAt
  rw [Swap_getElem? d i j k hi hj]
  split_ifs <;> rfl

theorem Less_iff (hless : ∀ x y, less x y = decide (key x < key y)) (d : List α) (i j : Nat)
    (hi : i < d.length) (hj : j < d.length) :
    Less less d i j = true ↔ keyAt key d i < keyAt key d j := by
  unfold Less keyAt
  rw [List.getElem?_eq_getElem hi, List.getElem?_eq_getElem hj]
  simp [hless]

theorem Less_false_iff (hless : ∀ x y, less x y = decide (key x < key y)) (d : List α) (i j : Nat)
    (hi : i < d.length) (hj : j < d.length) :
    Less less d i j = false ↔ keyAt key d j ≤ keyAt key d i := by
  unfold Less keyAt
  rw [List.getElem?_eq_getElem hi, List.getElem?_eq_getElem hj]
  simp [hless]

end keys

/-! ## Rearrangements of a range -/

theorem Shuffle.refl (a b : Nat) (d : List α) : Shuffle a b d d :=
  ⟨rfl, fun _ _ => rfl, fun _ h => h, List.Perm.refl _⟩

theorem Shuffle.trans {a b : Nat} {d r s : List α} (h1 : Shuffle a b d r) (h2 : Shuffle a b r s) :
    Shuffle a b d s := by
  obtain ⟨l1, f1, p1, q1⟩ := h1
  obtain ⟨l2, f2, p2, q2⟩ := h2
  refine ⟨l2.trans l1, fun k hk => (f2 k hk).trans (f1 k hk), fun P hP => p2 P (p1 P hP),
    q2.trans q1⟩

theorem Shuffle.mono {a b a2 b2 : Nat} {d r : List α} (h : Shuffle a b d r) (ha : a2 ≤ a)
    (hb : b ≤ b2) : Shuffle a2 b2 d r := by
  obtain ⟨l1, f1, p1, q1⟩ := h
  refine ⟨l1, fun k hk => f1 k (by omega), ?_, q1⟩
  intro P hP k x hk1 hk2 hx
  by_cases hin : a ≤ k ∧ k < b
  · exact p1 P (fun k x h1 h2 h3 => hP k x (by omega) (by omega) h3) k x hin.1 hin.2 hx
  · rw [f1 k (by omega)] at hx
    exact hP k x hk1 hk2 hx

theorem Shuffle_Swap (a b : Nat) (d : List α) (i j : Nat) (hai : a ≤ i) (hib : i < b)
    (haj : a ≤ j) (hjb : j < b) (hb : b ≤ d.length) : Shuffle a b d (Swap d i j) := by
  have hi : i < d.length := by omega
  have hj : j < d.length := by omega
  refine ⟨Swap_length d i j, ?_, ?_, Swap_perm d i j⟩
  · intro k hk
    rw [Swap_getElem? d i j k hi hj]
    have h1 : k ≠ j := by omega
    have h2 : k ≠ i := by omega
    simp [h1, h2]
  · intro P hP k x hk1 hk2 hx
    rw [Swap_getElem? d i j k hi hj] at hx
    split_ifs at hx
    · exact hP i x hai hib hx
    · exact hP j x haj hjb hx
    · exact hP k x hk1 hk2 hx

section keys2

variable (key : α → Int)

theorem Shuffle.keyAt_eq {a b : Nat} {d r : List α} (h : Shuffle a b d r) (k : Nat)
    (hk : k < a ∨ b ≤ k) : keyAt key r k = keyAt key d k := by
  unfold keyAt
  rw [h.2.1 k hk]

theorem Shuffle.lower {a b : Nat} {d r : List α} (h : Shuffle a b d r) (hb : b ≤ d.length)
    (c : Int) (hc : ∀ k, a ≤ k → k < b → c ≤ keyAt key d k) :
    ∀ k, a ≤ k → k < b → c ≤ keyAt key r k := by
  intro k hk1 hk2
  have hlen : k < r.length := by rw [h.1]; omega
  have := h.2.2.1 (fun x => c ≤ key x) (fun k x h1 h2 hx => by
    have := hc k h1 h2
    unfold keyAt at this
    rw [hx] at this
    exact this) k r[k] hk1 hk2 (List.getElem?_eq_getElem hlen)
  unfold keyAt
  rw [List.getElem?_eq_getElem hlen]
  exact this

theorem Shuffle.upper {a b : Nat} {d r : List α} (h : Shuffle a b d r) (hb : b ≤ d.length)
    (c : Int) (hc : ∀ k, a ≤ k → k < b → keyAt key d k ≤ c) :
    ∀ k, a ≤ k → k < b → keyAt key r k ≤ c := by
  intro k hk1 hk2
  have hlen : k < r.length := by rw [h.1]; omega
  have := h.2.2.1 (fun x => key x ≤ c) (fun k x h1 h2 hx => by
    have := hc k h1 h2
    unfold keyAt at this
    rw [hx] at this
    exact this) k r[k] hk1 hk2 (List.getElem?_eq_getElem hlen)
  unfold keyAt
  rw [List.getElem?_eq_getElem hlen]
  exact this

theorem Shuffle.leftBound {a b : Nat} {d r : List α} (h : Shuffle a b d r) (hb : b ≤ d.length)
    (hl : LeftBound key d a b) : LeftBound key r a b := by
  intro ha
  rw [h.keyAt_eq key (a - 1) (by omega)]
  exact h.lower key hb _ (hl ha)

end keys2

/-! ## `insertionSort_func` -/

section insertion

variable (key : α → Int) (less : α → α → Bool)

theorem SortedRange.shrink {d : List α} {a b b2 : Nat} (h : SortedRange key d a b) (hb : b2 ≤ b) :
    SortedRange key d a b2 :=
  fun p q hp hpq hq => h p q hp hpq (by omega)

theorem insertionSort_inner_spec (hless : ∀ x y, less x y = decide (key x < key y))
    (a i : Nat) : ∀ (j : Nat) (d : List α), a ≤ j → j ≤ i → i < d.length →
    (∀ p q, a ≤ p → p < q → q ≤ i → p ≠ j → q ≠ j → keyAt key d p ≤ keyAt key d q) →
    (∀ q, j < q → q ≤ i → keyAt key d j < keyAt key d q) →
    Shuffle a (i + 1) d (insertionSort_inner less a d j) ∧
      SortedRange key (insertionSort_inner less a d j) a (i + 1) := by
  intro j
  induction j with
  | zero =>
    intro d haj hji hi H1 H2
    rw [show insertionSort_inner less a d 0 = d from rfl]
    refine ⟨Shuffle.refl _ _ _, ?_⟩
    intro p q hp hpq hq
    have h1 := H1 p q
    have h2 := H2 q
    rcases Nat.eq_or_lt_of_le hpq with h | h
    · subst h; exact le_refl _
    · by_cases hp0 : p = 0
      · subst hp0; omega
      · omega
  | succ j ih =>
    intro d haj hji hi H1 H2
    unfold insertionSort_inner
    by_cases hc : (decide (a < j + 1) && Less less d (j + 1) j) = true
    · rw [if_pos hc]
      simp only [Bool.and_eq_true, decide_eq_true_eq] at hc
      obtain ⟨haj2, hl⟩ := hc
      have hj1 : j + 1 < d.length := by omega
      have hj0 : j < d.length := by omega
      rw [Less_iff key less hless d (j + 1) j hj1 hj0] at hl
      have hK := keyAt_Swap key d (j + 1) j hj1 hj0
      have hlen := Swap_length d (j + 1) j
      have := ih (Swap d (j + 1) j) (by omega) (by omega) (by omega) (by
        intro p q hp hpq hq hpj hqj
        rw [hK p, hK q]
        have h1 := H1 p q
        have h2 := H1 p j
        have h3 := H1 j q
        split_ifs <;> omega) (by
        intro q hjq hq
        rw [hK j, hK q]
        have h2 := H2 q
        split_ifs <;> omega)
      exact ⟨(Shuffle_Swap a (i + 1) d (j + 1) j (by omega) (by omega) (by omega) (by omega)
        (by omega)).trans this.1, this.2⟩
    · rw [if_neg hc]
      refine ⟨Shuffle.refl _ _ _, ?_⟩
      have hj1 : j + 1 < d.length := by omega
      have hj0 : j < d.length := by omega
      have hc2 : ¬ (a < j + 1) ∨ keyAt key d j ≤ keyAt key d (j + 1) := by
        by_cases h : a < j + 1
        · right
          simp only [h, decide_True, Bool.true_and, Bool.not_eq_true] at hc
          exact (Less_false_iff key less hless d (j + 1) j hj1 hj0).mp hc
        · left; exact h
      intro p q hp hpq hq
      have h1 := H1 p q
      have h2 := H2 q
      have h3 := H1 p j
      rcases Nat.eq_or_lt_of_le hpq with h | h
      · subst h; exact le_refl _
      · by_cases hp0 : p = j + 1
        · subst hp0; omega
        · by_cases hq0 : q = j + 1
          · subst hq0
            by_cases hpj : p = j
            · subst hpj; omega
            · omega
          · omega

theorem insertionSort_outer_spec (hless : ∀ x y, less x y = decide (key x < key y))
    (a b : Nat) : ∀ (fuel i : Nat) (d : List α), a + 1 ≤ i → b ≤ d.length → b ≤ i + fuel →
    SortedRange key d a i →
    Shuffle a b d (insertionSort_outer less a b fuel i d) ∧
      SortedRange key (insertionSort_outer less a b fuel i d) a b := by
  intro fuel
  induction fuel with
  | zero =>
    intro i d hai hb hf hs
    exact ⟨Shuffle.refl _ _ _, hs.shrink key (by omega)⟩
  | succ fuel ih =>
    intro i d hai hb hf hs
    unfold insertionSort_outer
    by_cases hib : i < b
    · rw [if_pos hib]
      have hin := insertionSort_inner_spec key less hless a i i d (by omega) (le_refl _)
        (by omega) (fun p q hp hpq hq hpi hqi => hs p q hp (by omega) (by omega))
        (fun q h1 h2 => by omega)
      have hlen := hin.1.1
      have := ih (i + 1) (insertionSort_inner less a d i) (by omega) (by omega) (by omega) hin.2
      exact ⟨(hin.1.mono (le_refl _) (by omega)).trans this.1, this.2⟩
    · rw [if_neg hib]
      exact ⟨Shuffle.refl _ _ _, hs.shrink key (by omega)⟩

theorem insertionSort_func_spec (hless : ∀ x y, less x y = decide (key x < key y))
    (d : List α) (a b : Nat) (hb : b ≤ d.length) :
    Shuffle a b d (insertionSort_func less d a b) ∧
      SortedRange key (insertionSort_func less d a b) a b := by
  unfold insertionSort_func
  apply insertionSort_outer_spec key less hless a b b (a + 1) d (le_refl _) hb (by omega)
  intro p q hp hpq hq
  have : p = q := by omega
  subst this
  exact le_refl _

/-! ### Insertion sort keeps entries with equal keys in order -/

theorem Swap_cons_succ (x : α) (t : List α) (i j : Nat) :
    Swap (x :: t) (i + 1) (j + 1) = x :: Swap t i j := by
  unfold Swap
  simp only [List.getElem?_cons_succ]
  split <;> simp_all

theorem withKey_Swap_adjacent (t : Int) : ∀ (d : List α) (j : Nat), j + 1 < d.length →
    keyAt key d (j + 1) ≠ keyAt key d j →
    withKey key t (Swap d (j + 1) j) = withKey key t d := by
  intro d
  induction d with
  | nil => intro j hj; simp at hj
  | cons x rest ih =>
    intro j hj hne
    cases j with
    | zero =>
      cases rest with
      | nil => simp at hj
      | cons y rest =>
        simp only [keyAt, List.getElem?_cons_succ, List.getElem?_cons_zero] at hne
        simp only [Swap, List.getElem?_cons_succ, List.getElem?_cons_zero, List.set_cons_succ,
          List.set_cons_zero, withKey, List.filter_cons]
        by_cases h1 : key x = t <;> by_cases h2 : key y = t <;> simp [h1, h2]
        omega
    | succ j =>
      rw [Swap_cons_succ]
      have hne2 : keyAt key rest (j + 1) ≠ keyAt key rest j := by
        simpa [keyAt] using hne
      have := ih j (by simpa using hj) hne2
      simp only [withKey, List.filter_cons] at this ⊢
      rw [this]

theorem insertionSort_inner_withKey (hless : ∀ x y, less x y = decide (key x < key y))
    (a : Nat) (t : Int) : ∀ (j : Nat) (d : List α), j < d.length →
    withKey key t (insertionSort_inner less a d j) = withKey key t d := by
  intro j
  induction j with
  | zero => intro d _; rfl
  | succ j ih =>
    intro d hj
    unfold insertionSort_inner
    by_cases hc : (decide (a < j + 1) && Less less d (j + 1) j) = true
    · rw [if_pos hc]
      simp only [Bool.and_eq_true, decide_eq_true_eq] at hc
      have hl := (Less_iff key less hless d (j + 1) j hj (by omega)).mp hc.2
      rw [ih (Swap d (j + 1) j) (by rw [Swap_length]; omega)]
      exact withKey_Swap_adjacent key t d j hj (by omega)
    · rw [if_neg hc]

theorem insertionSort_inner_length (a : Nat) : ∀ (j : Nat) (d : List α),
    (insertionSort_inner less a d j).length = d.length := by
  intro j
  induction j with
  | zero => intro d; rfl
  | succ j ih =>
    intro d
    unfold insertionSort_inner
    split
    · rw [ih, Swap_length]
    · rfl

theorem insertionSort_outer_withKey (hless : ∀ x y, less x y = decide (key x < key y))
    (a b : Nat) (t : Int) : ∀ (fuel i : Nat) (d : List α), b ≤ d.length →
    withKey key t (insertionSort_outer less a b fuel i d) = withKey key t d := by
  intro fuel
  induction fuel with
  | zero => intro i d _; rfl
  | succ fuel ih =>
    intro i d hb
    unfold insertionSort_outer
    by_cases hib : i < b
    · rw [if_pos hib, ih (i + 1) _ (by rw [insertionSort_inner_length]; exact hb)]
      exact insertionSort_inner_withKey key less hless a t i d (by omega)
    · rw [if_neg hib]

theorem insertionSort_func_withKey (hless : ∀ x y, less x y = decide (key x < key y))
    (d : List α) (a b : Nat) (hb : b ≤ d.length) (t : Int) :
    withKey key t (insertionSort_func less d a b) = withKey key t d :=
  insertionSort_outer_withKey key less hless a b t b (a + 1) d hb

end insertion

/-! ## `partition_func` -/

section partition

variable (key : α → Int) (less : α → α → Bool)

theorem partition_up_spec (hless : ∀ x y, less x y = decide (key x < key y)) (d : List α)
    (a j : Nat) (ha : a < d.length) (hj : j < d.length) : ∀ (fuel i : Nat), i ≤ j + 1 →
    j + 1 ≤ i + fuel →
    i ≤ partition_up less d a j fuel i ∧ partition_up less d a j fuel i ≤ j + 1 ∧
    (∀ k, i ≤ k → k < partition_up less d a j fuel i → keyAt key d k < keyAt key d a) ∧
    (partition_up less d a j fuel i ≤ j →
      keyAt key d a ≤ keyAt key d (partition_up less d a j fuel i)) := by
  intro fuel
  induction fuel with
  | zero =>
    intro i h1 h2
    rw [show partition_up less d a j 0 i = i from rfl]
    exact ⟨le_refl _, h1, fun k _ _ => by omega, fun _ => by omega⟩
  | succ fuel ih =>
    intro i h1 h2
    unfold partition_up
    by_cases hc : (decide (i ≤ j) && Less less d i a) = true
    · rw [if_pos hc]
      simp only [Bool.and_eq_true, decide_eq_true_eq] at hc
      have hl := (Less_iff key less hless d i a (by omega) ha).mp hc.2
      obtain ⟨g1, g2, g3, g4⟩ := ih (i + 1) (by omega) (by omega)
      refine ⟨by omega, g2, ?_, g4⟩
      intro k hk1 hk2
      by_cases hki : k = i
      · subst hki; exact hl
      · exact g3 k (by omega) hk2
    · rw [if_neg hc]
      refine ⟨le_refl _, h1, fun k _ _ => by omega, ?_⟩
      intro hij
      simp only [hij, decide_True, Bool.true_and, Bool.not_eq_true] at hc
      exact (Less_false_iff key less hless d i a (by omega) ha).mp hc

theorem partition_down_spec (hless : ∀ x y, less x y = decide (key x < key y)) (d : List α)
    (a i : Nat) (ha : a < d.length) (hi : 1 ≤ i) : ∀ (j : Nat), j < d.length → i ≤ j + 1 →
    partition_down less d a i j ≤ j ∧ i ≤ partition_down less d a i j + 1 ∧
    (∀ k, partition_down less d a i j < k → k ≤ j → keyAt key d a ≤ keyAt key d k) ∧
    (i ≤ partition_down less d a i j →
      keyAt key d (partition_down less d a i j) < keyAt key d a) := by
  intro j
  induction j with
  | zero =>
    intro h1 h2
    rw [show partition_down less d a i 0 = 0 from rfl]
    exact ⟨le_refl _, h2, fun k _ _ => by omega, fun _ => by omega⟩
  | succ j ih =>
    intro h1 h2
    unfold partition_down
    by_cases hc : (decide (i ≤ j + 1) && !Less less d (j + 1) a) = true
    · rw [if_pos hc]
      simp only [Bool.and_eq_true, decide_eq_true_eq, Bool.not_eq_true'] at hc
      have hl := (Less_false_iff key less hless d (j + 1) a h1 ha).mp hc.2
      obtain ⟨g1, g2, g3, g4⟩ := ih (by omega) (by omega)
      refine ⟨by omega, g2, ?_, g4⟩
      intro k hk1 hk2
      by_cases hki : k = j + 1
      · subst hki; exact hl
      · exact g3 k hk1 (by omega)
    · rw [if_neg hc]
      refine ⟨le_refl _, h2, fun k _ _ => by omega, ?_⟩
      intro hij
      simp only [hij, decide_True, Bool.true_and, Bool.not_eq_true', Bool.not_eq_false] at hc
      exact (Less_iff key less hless d (j + 1) a h1 ha).mp hc

theorem partition_loop_spec (hless : ∀ x y, less x y = decide (key x < key y)) (a b : Nat)
    (c : Int) : ∀ (fuel : Nat) (d : List α) (i j : Nat), b ≤ d.length → a + 1 ≤ i →
    j + 1 ≤ b → i ≤ j + 1 → j + 1 ≤ i + fuel → keyAt key d a = c →
    (∀ k, a + 1 ≤ k → k < i → keyAt key d k < c) →
    (∀ k, j < k → k < b → c ≤ keyAt key d k) →
    Shuffle (a + 1) b d (partition_loop less a fuel d i j).1 ∧
    a ≤ (partition_loop less a fuel d i j).2 ∧ (partition_loop less a fuel d i j).2 < b ∧
    (∀ k, a + 1 ≤ k → k ≤ (partition_loop less a fuel d i j).2 →
      keyAt key (partition_loop less a fuel d i j).1 k < c) ∧
    (∀ k, (partition_loop less a fuel d i j).2 < k → k < b →
      c ≤ keyAt key (partition_loop less a fuel d i j).1 k) := by
  intro fuel
  induction fuel with
  | zero =>
    intro d i j hb hi hj hij hf hc hlo hhi
    rw [show partition_loop less a 0 d i j = (d, j) from rfl]
    exact ⟨Shuffle.refl _ _ _, by omega, by omega, fun k h1 h2 => hlo k h1 (by omega), hhi⟩
  | succ fuel ih =>
    intro d i j hb hi hj hij hf hc hlo hhi
    unfold partition_loop
    dsimp only
    have ha : a < d.length := by omega
    obtain ⟨u1, u2, u3, u4⟩ := partition_up_spec key less hless d a j ha (by omega) (j + 1) i
      hij (by omega)
    generalize partition_up less d a j (j + 1) i = i2 at u1 u2 u3 u4 ⊢
    obtain ⟨v1, v2, v3, v4⟩ := partition_down_spec key less hless d a i2 ha (by omega) j
      (by omega) u2
    generalize partition_down less d a i2 j = j2 at v1 v2 v3 v4 ⊢
    by_cases hgt : i2 > j2
    · rw [if_pos hgt]
      dsimp only
      refine ⟨Shuffle.refl _ _ _, by omega, by omega, ?_, ?_⟩
      · intro k h1 h2
        by_cases hk : k < i
        · exact hlo k h1 hk
        · have := u3 k (by omega) (by omega)
          omega
      · intro k h1 h2
        by_cases hk : j < k
        · exact hhi k hk h2
        · exact hc ▸ v3 k h1 (by omega)
    · rw [if_neg hgt]
      have hi2 : i2 < d.length := by omega
      have hj2 : j2 < d.length := by omega
      have h4 := u4 (by omega)
      have h5 := v4 (by omega)
      have hne : i2 ≠ j2 := by
        intro h
        rw [h] at h4
        omega
      have hK := keyAt_Swap key d i2 j2 hi2 hj2
      have hlen := Swap_length d i2 j2
      obtain ⟨w1, w2, w3, w4, w5⟩ := ih (Swap d i2 j2) (i2 + 1) (j2 - 1) (by omega) (by omega)
        (by omega) (by omega) (by omega)
        (by rw [hK a]; split_ifs <;> omega)
        (by
          intro k h1 h2
          rw [hK k]
          have := hlo k h1
          have := u3 k
          split_ifs <;> omega)
        (by
          intro k h1 h2
          rw [hK k]
          have := hhi k
          have := v3 k
          split_ifs <;> omega)
      exact ⟨(Shuffle_Swap (a + 1) b d i2 j2 (by omega) (by omega) (by omega) (by omega)
        hb).trans w1, w2, w3, w4, w5⟩

theorem partition_func_spec (hless : ∀ x y, less x y = decide (key x < key y)) (d : List α)
    (a b pivot : Nat) (hb : b ≤ d.length) (hap : a ≤ pivot) (hpb : pivot < b) :
    Shuffle a b d (partition_func less d a b pivot).1 ∧
    a ≤ (partition_func less d a b pivot).2.1 ∧ (partition_func less d a b pivot).2.1 < b ∧
    (∀ k, a ≤ k → k < (partition_func less d a b pivot).2.1 →
      keyAt key (partition_func less d a b pivot).1 k <
        keyAt key (partition_func less d a b pivot).1 (partition_func less d a b pivot).2.1) ∧
    (∀ k, (partition_func less d a b pivot).2.1 < k → k < b →
      keyAt key (partition_func less d a b pivot).1 (partition_func less d a b pivot).2.1 ≤
        keyAt key (partition_func less d a b pivot).1 k) := by
  unfold partition_func
  dsimp only
  have hs0 := Shuffle_Swap a b d a pivot (le_refl _) (by omega) hap hpb hb
  have hlen0 := Swap_length d a pivot
  generalize Swap d a pivot = d1 at hs0 hlen0 ⊢
  have ha : a < d1.length := by omega
  obtain ⟨u1, u2, u3, u4⟩ := partition_up_spec key less hless d1 a (b - 1) ha (by omega)
    (b - 1 + 1) (a + 1) (by omega) (by omega)
  generalize partition_up less d1 a (b - 1) (b - 1 + 1) (a + 1) = i at u1 u2 u3 u4 ⊢
  obtain ⟨v1, v2, v3, v4⟩ := partition_down_spec key less hless d1 a i ha (by omega) (b - 1)
    (by omega) u2
  generalize partition_down less d1 a i (b - 1) = j at v1 v2 v3 v4 ⊢
  by_cases hgt : i > j
  · rw [if_pos hgt]
    dsimp only
    have hK := keyAt_Swap key d1 j a (by omega) ha
    refine ⟨hs0.trans (Shuffle_Swap a b d1 j a (by omega) (by omega) (le_refl _) (by omega)
      (by omega)), by omega, by omega, ?_, ?_⟩
    · intro k h1 h2
      rw [hK k, hK j]
      have := u3 k
      have := u3 j
      split_ifs <;> omega
    · intro k h1 h2
      rw [hK k, hK j]
      have := v3 k
      have : j = a → keyAt key d1 j = keyAt key d1 a := fun h => by rw [h]
      split_ifs <;> omega
  · rw [if_neg hgt]
    have hi2 : i < d1.length := by omega
    have hj2 : j < d1.length := by omega
    have h4 := u4 (by omega)
    have h5 := v4 (by omega)
    have hne : i ≠ j := by
      intro h
      rw [h] at h4
      omega
    have hK := keyAt_Swap key d1 i j hi2 hj2
    have hlen := Swap_length d1 i j
    obtain ⟨w1, w2, w3, w4, w5⟩ := partition_loop_spec key less hless a b (keyAt key d1 a) b
      (Swap d1 i j) (i + 1) (j - 1) (by omega) (by omega) (by omega) (by omega) (by omega)
      (by rw [hK a]; split_ifs <;> omega)
      (by
        intro k h1 h2
        rw [hK k]
        have := u3 k
        split_ifs <;> omega)
      (by
        intro k h1 h2
        rw [hK k]
        have := v3 k
        split_ifs <;> omega)
    have hs2 := Shuffle_Swap a b d1 i j (by omega) (by omega) (by omega) (by omega) (by omega)
    have hKa : keyAt key (partition_loop less a b (Swap d1 i j) (i + 1) (j - 1)).1 a =
        keyAt key d1 a := by
      rw [w1.keyAt_eq key a (by omega), hK a]
      split_ifs <;> omega
    have hlen2 := w1.1
    generalize partition_loop less a b (Swap d1 i j) (i + 1) (j - 1) = res at w1 w2 w3 w4 w5 hKa hlen2 ⊢
    obtain ⟨r, m⟩ := res
    dsimp only at w1 w2 w3 w4 w5 hKa hlen2 ⊢
    have hK2 := keyAt_Swap key r m a (by omega) (by omega)
    refine ⟨hs0.trans (hs2.trans ((w1.mono (by omega) (le_refl _)).trans
      (Shuffle_Swap a b r m a (by omega) (by omega) (le_refl _) (by omega) (by omega)))),
      w2, w3, ?_, ?_⟩
    · intro k h1 h2
      rw [hK2 k, hK2 m]
      have := w4 k
      have := w4 m
      split_ifs <;> omega
    · intro k h1 h2
      rw [hK2 k, hK2 m]
      have := w5 k
      have : m = a → keyAt key r m = keyAt key r a := fun h => by rw [h]
      split_ifs <;> omega

end partition

/-! ## `partitionEqual_func` -/

section partitionEqual

variable (key : α → Int) (less : α → α → Bool)

theorem partitionEqual_up_spec (hless : ∀ x y, less x y = decide (key x < key y)) (d : List α)
    (a j : Nat) (ha : a < d.length) (hj : j < d.length) : ∀ (fuel i : Nat), i ≤ j + 1 →
    j + 1 ≤ i + fuel →
    i ≤ partitionEqual_up less d a j fuel i ∧ partitionEqual_up less d a j fuel i ≤ j + 1 ∧
    (∀ k, i ≤ k → k < partitionEqual_up less d a j fuel i → keyAt key d k ≤ keyAt key d a) ∧
    (partitionEqual_up less d a j fuel i ≤ j →
      keyAt key d a < keyAt key d (partitionEqual_up less d a j fuel i)) := by
  intro fuel
  induction fuel with
  | zero =>
    intro i h1 h2
    rw [show partitionEqual_up less d a j 0 i = i from rfl]
    exact ⟨le_refl _, h1, fun k _ _ => by omega, fun _ => by omega⟩
  | succ fuel ih =>
    intro i h1 h2
    unfold partitionEqual_up
    by_cases hc : (decide (i ≤ j) && !Less less d a i) = true
    · rw [if_pos hc]
      simp only [Bool.and_eq_true, decide_eq_true_eq, Bool.not_eq_true'] at hc
      have hl := (Less_false_iff key less hless d a i ha (by omega)).mp hc.2
      obtain ⟨g1, g2, g3, g4⟩ := ih (i + 1) (by omega) (by omega)
      refine ⟨by omega, g2, ?_, g4⟩
      intro k hk1 hk2
      by_cases hki : k = i
      · subst hki; exact hl
      · exact g3 k (by omega) hk2
    · rw [if_neg hc]
      refine ⟨le_refl _, h1, fun k _ _ => by omega, ?_⟩
      intro hij
      simp only [hij, decide_True, Bool.true_and, Bool.not_eq_true', Bool.not_eq_false] at hc
      exact (Less_iff key less hless d a i ha (by omega)).mp hc

theorem partitionEqual_down_spec (hless : ∀ x y, less x y = decide (key x < key y))
    (d : List α) (a i : Nat) (ha : a < d.length) (hi : 1 ≤ i) : ∀ (j : Nat), j < d.length →
    i ≤ j + 1 →
    partitionEqual_down less d a i j ≤ j ∧ i ≤ partitionEqual_down less d a i j + 1 ∧
    (∀ k, partitionEqual_down less d a i j < k → k ≤ j → keyAt key d a < keyAt key d k) ∧
    (i ≤ partitionEqual_down less d a i j →
      keyAt key d (partitionEqual_down less d a i j) ≤ keyAt key d a) := by
  intro j
  induction j with
  | zero =>
    intro h1 h2
    rw [show partitionEqual_down less d a i 0 = 0 from rfl]
    exact ⟨le_refl _, h2, fun k _ _ => by omega, fun _ => by omega⟩
  | succ j ih =>
    intro h1 h2
    unfold partitionEqual_down
    by_cases hc : (decide (i ≤ j + 1) && Less less d a (j + 1)) = true
    · rw [if_pos hc]
      simp only [Bool.and_eq_true, decide_eq_true_eq] at hc
      have hl := (Less_iff key less hless d a (j + 1) ha h1).mp hc.2
      obtain ⟨g1, g2, g3, g4⟩ := ih (by omega) (by omega)
      refine ⟨by omega, g2, ?_, g4⟩
      intro k hk1 hk2
      by_cases hki : k = j + 1
      · subst hki; exact hl
      · exact g3 k hk1 (by omega)
    · rw [if_neg hc]
      refine ⟨le_refl _, h2, fun k _ _ => by omega, ?_⟩
      intro hij
      simp only [hij, decide_True, Bool.true_and, Bool.not_eq_true] at hc
      exact (Less_false_iff key less hless d a (j + 1) ha h1).mp hc

theorem partitionEqual_loop_spec (hless : ∀ x y, less x y = decide (key x < key y)) (a b : Nat)
    (c : Int) : ∀ (fuel : Nat) (d : List α) (i j : Nat), b ≤ d.length → a + 1 ≤ i →
    j + 1 ≤ b → i ≤ j + 1 → j + 1 ≤ i + fuel → keyAt key d a = c →
    (∀ k, a + 1 ≤ k → k < i → keyAt key d k ≤ c) →
    (∀ k, j < k → k < b → c < keyAt key d k) →
    Shuffle (a + 1) b d (partitionEqual_loop less a fuel d i j).1 ∧
    a + 1 ≤ (partitionEqual_loop less a fuel d i j).2 ∧
    (partitionEqual_loop less a fuel d i j).2 ≤ b ∧
    (∀ k, a + 1 ≤ k → k < (partitionEqual_loop less a fuel d i j).2 →
      keyAt key (partitionEqual_loop less a fuel d i j).1 k ≤ c) ∧
    (∀ k, (partitionEqual_loop less a fuel d i j).2 ≤ k → k < b →
      c < keyAt key (partitionEqual_loop less a fuel d i j).1 k) := by
  intro fuel
  induction fuel with
  | zero =>
    intro d i j hb hi hj hij hf hc hlo hhi
    rw [show partitionEqual_loop less a 0 d i j = (d, i) from rfl]
    exact ⟨Shuffle.refl _ _ _, by omega, by omega, hlo, fun k h1 h2 => hhi k (by omega) h2⟩
  | succ fuel ih =>
    intro d i j hb hi hj hij hf hc hlo hhi
    unfold partitionEqual_loop
    dsimp only
    have ha : a < d.length := by omega
    obtain ⟨u1, u2, u3, u4⟩ := partitionEqual_up_spec key less hless d a j ha (by omega)
      (j + 1) i hij (by omega)
    generalize partitionEqual_up less d a j (j + 1) i = i2 at u1 u2 u3 u4 ⊢
    obtain ⟨v1, v2, v3, v4⟩ := partitionEqual_down_spec key less hless d a i2 ha (by omega) j
      (by omega) u2
    generalize partitionEqual_down less d a i2 j = j2 at v1 v2 v3 v4 ⊢
    by_cases hgt : i2 > j2
    · rw [if_pos hgt]
      dsimp only
      refine ⟨Shuffle.refl _ _ _, by omega, by omega, ?_, ?_⟩
      · intro k h1 h2
        by_cases hk : k < i
        · exact hlo k h1 hk
        · have := u3 k (by omega) (by omega)
          omega
      · intro k h1 h2
        by_cases hk : j < k
        · exact hhi k hk h2
        · exact hc ▸ v3 k (by omega) (by omega)
    · rw [if_neg hgt]
      have hi2 : i2 < d.length := by omega
      have hj2 : j2 < d.length := by omega
      have h4 := u4 (by omega)
      have h5 := v4 (by omega)
      have hne : i2 ≠ j2 := by
        intro h
        rw [h] at h4
        omega
      have hK := keyAt_Swap key d i2 j2 hi2 hj2
      have hlen := Swap_length d i2 j2
      obtain ⟨w1, w2, w3, w4, w5⟩ := ih (Swap d i2 j2) (i2 + 1) (j2 - 1) (by omega) (by omega)
        (by omega) (by omega) (by omega)
        (by rw [hK a]; split_ifs <;> omega)
        (by
          intro k h1 h2
          rw [hK k]
          have := hlo k h1
          have := u3 k
          split_ifs <;> omega)
        (by
          intro k h1 h2
          rw [hK k]
          have := hhi k
          have := v3 k
          split_ifs <;> omega)
      exact ⟨(Shuffle_Swap (a + 1) b d i2 j2 (by omega) (by omega) (by omega) (by omega)
        hb).trans w1, w2, w3, w4, w5⟩

theorem partitionEqual_func_spec (hless : ∀ x y, less x y = decide (key x < key y))
    (d : List α) (a b pivot : Nat) (hb : b ≤ d.length) (hap : a ≤ pivot) (hpb : pivot < b) :
    Shuffle a b d (partitionEqual_func less d a b pivot).1 ∧
    a + 1 ≤ (partitionEqual_func less d a b pivot).2 ∧
    (partitionEqual_func less d a b pivot).2 ≤ b ∧
    (∀ k, a ≤ k → k < (partitionEqual_func less d a b pivot).2 →
      keyAt key (partitionEqual_func less d a b pivot).1 k ≤ keyAt key d pivot) ∧
    (∀ k, (partitionEqual_func less d a b pivot).2 ≤ k → k < b →
      keyAt key d pivot < keyAt key (partitionEqual_func less d a b pivot).1 k) := by
  unfold partitionEqual_func
  dsimp only
  have hs0 := Shuffle_Swap a b d a pivot (le_refl _) (by omega) hap hpb hb
  have hlen0 := Swap_length d a pivot
  have hKa : keyAt key (Swap d a pivot) a = keyAt key d pivot := by
    rw [keyAt_Swap key d a pivot (by omega) (by omega) a]
    split_ifs with h h2
    · rw [h]
    · rfl
    · exact absurd rfl h2
  generalize Swap d a pivot = d1 at hs0 hlen0 hKa ⊢
  obtain ⟨w1, w2, w3, w4, w5⟩ := partitionEqual_loop_spec key less hless a b (keyAt key d pivot)
    b d1 (a + 1) (b - 1) (by omega) (le_refl _) (by omega) (by omega) (by omega) hKa
    (fun k h1 h2 => by omega) (fun k h1 h2 => by omega)
  refine ⟨hs0.trans (w1.mono (by omega) (le_refl _)), w2, w3, ?_, w5⟩
  intro k h1 h2
  by_cases hk : k = a
  · subst hk
    rw [w1.keyAt_eq key k (by omega), hKa]
  · exact w4 k (by omega) h2

end partitionEqual

/-! ## `reverseRange_func`, `breakPatterns_func` and `choosePivot_func` -/

theorem reverseRange_loop_spec (a b : Nat) : ∀ (fuel : Nat) (d : List α) (i j : Nat), a ≤ i →
    j < b → b ≤ d.length → Shuffle a b d (reverseRange_loop fuel d i j) := by
  intro fuel
  induction fuel with
  | zero => intro d i j _ _ _; exact Shuffle.refl _ _ _
  | succ fuel ih =>
    intro d i j hi hj hb
    unfold reverseRange_loop
    by_cases hij : i < j
    · rw [if_pos hij]
      exact (Shuffle_Swap a b d i j hi (by omega) (by omega) hj hb).trans
        (ih (Swap d i j) (i + 1) (j - 1) (by omega) (by omega) (by rw [Swap_length]; exact hb))
    · rw [if_neg hij]
      exact Shuffle.refl _ _ _

theorem reverseRange_func_spec (d : List α) (a b : Nat) (hab : a < b) (hb : b ≤ d.length) :
    Shuffle a b d (reverseRange_func d a b) :=
  reverseRange_loop_spec a b b d a (b - 1) (le_refl _) (by omega) hb

theorem bitsLen_loop_le : ∀ (fuel x : Nat), x ≤ fuel → 1 ≤ x →
    2 ^ bitsLen_loop fuel x ≤ 2 * x := by
  intro fuel
  induction fuel with
  | zero => intro x h1 h2; omega
  | succ fuel ih =>
    intro x h1 h2
    unfold bitsLen_loop
    rw [if_neg (by omega)]
    by_cases hx : x / 2 = 0
    · have : bitsLen_loop fuel (x / 2) = 0 := by
        rw [hx]
        cases fuel with
        | zero => rfl
        | succ f => simp [bitsLen_loop]
      rw [this]
      simp
      omega
    · have := ih (x / 2) (by omega) (by omega)
      rw [pow_succ]
      omega

theorem nextPowerOfTwo_le (length : Nat) (h : 1 ≤ length) : nextPowerOfTwo length ≤ 2 * length := by
  unfold nextPowerOfTwo bitsLen
  rw [Nat.one_shiftLeft]
  exact bitsLen_loop_le length length (le_refl _) h

theorem nextPowerOfTwo_pos (length : Nat) : 1 ≤ nextPowerOfTwo length := by
  unfold nextPowerOfTwo
  rw [Nat.one_shiftLeft]
  exact Nat.one_le_two_pow

theorem breakPatterns_loop_spec (a b length modulus idx : Nat) (hlen : length = b - a)
    (h8 : 8 ≤ length) (hm1 : 1 ≤ modulus) (hm2 : modulus ≤ 2 * length)
    (hidx : idx = a + (length / 4) * 2 - 1) :
    ∀ (fuel i random : Nat) (d : List α), b ≤ d.length →
    Shuffle a b d (breakPatterns_loop a length modulus idx fuel i random d) := by
  intro fuel
  induction fuel with
  | zero => intro i random d _; exact Shuffle.refl _ _ _
  | succ fuel ih =>
    intro i random d hb
    unfold breakPatterns_loop
    by_cases hi : i < 3
    · rw [if_pos hi]
      dsimp only
      have hand : xorshift_Next random &&& (modulus - 1) ≤ modulus - 1 := Nat.and_le_right
      generalize xorshift_Next random &&& (modulus - 1) = other at hand
      have hother : (if other ≥ length then other - length else other) < length := by
        split_ifs <;> omega
      generalize (if other ≥ length then other - length else other) = other2 at hother
      exact (Shuffle_Swap a b d (idx + i) (a + other2) (by omega) (by omega) (by omega)
        (by omega) hb).trans (ih (i + 1) _ _ (by rw [Swap_length]; exact hb))
    · rw [if_neg hi]
      exact Shuffle.refl _ _ _

theorem breakPatterns_func_spec (d : List α) (a b : Nat) (hb : b ≤ d.length) :
    Shuffle a b d (breakPatterns_func d a b) := by
  unfold breakPatterns_func
  dsimp only
  by_cases h8 : b - a ≥ 8
  · rw [if_pos h8]
    exact breakPatterns_loop_spec a b (b - a) (nextPowerOfTwo (b - a)) _ rfl h8
      (nextPowerOfTwo_pos _) (nextPowerOfTwo_le _ (by omega)) rfl 3 0 (b - a) d hb
  · rw [if_neg h8]
    exact Shuffle.refl _ _ _

section pivot

variable (less : α → α → Bool)

theorem order2_func_cases (d : List α) (a b swaps : Nat) :
    ((order2_func less d a b swaps).1 = a ∧ (order2_func less d a b swaps).2.1 = b) ∨
      ((order2_func less d a b swaps).1 = b ∧ (order2_func less d a b swaps).2.1 = a) := by
  unfold order2_func
  split_ifs <;> simp

theorem median_func_mem (d : List α) (a b c swaps : Nat) :
    (median_func less d a b c swaps).1 = a ∨ (median_func less d a b c swaps).1 = b ∨
      (median_func less d a b c swaps).1 = c := by
  unfold median_func
  have h1 := order2_func_cases less d a b swaps
  generalize order2_func less d a b swaps = r1 at h1 ⊢
  obtain ⟨x1, y1, s1⟩ := r1
  dsimp only at h1 ⊢
  have h2 := order2_func_cases less d y1 c s1
  generalize order2_func less d y1 c s1 = r2 at h2 ⊢
  obtain ⟨x2, y2, s2⟩ := r2
  dsimp only at h2 ⊢
  have h3 := order2_func_cases less d x1 x2 s2
  generalize order2_func less d x1 x2 s2 = r3 at h3 ⊢
  obtain ⟨x3, y3, s3⟩ := r3
  dsimp only at h3 ⊢
  omega

theorem medianAdjacent_func_mem (d : List α) (a swaps : Nat) :
    a - 1 ≤ (medianAdjacent_func less d a swaps).1 ∧
      (medianAdjacent_func less d a swaps).1 ≤ a + 1 := by
  unfold medianAdjacent_func
  rcases median_func_mem less d (a - 1) a (a + 1) swaps with h | h | h <;> rw [h] <;> omega

theorem choosePivot_func_mem (d : List α) (a b : Nat) (hab : a < b) :
    a ≤ (choosePivot_func less d a b).1 ∧ (choosePivot_func less d a b).1 < b := by
  have key1 : ∀ (p : Nat × Nat), a ≤ p.1 ∧ p.1 < b →
      a ≤ (if p.2 = 0 then (p.1, sortedHint.increasingHint)
        else if p.2 = 4 * 3 then (p.1, sortedHint.decreasingHint)
        else (p.1, sortedHint.unknownHint)).1 ∧
      (if p.2 = 0 then (p.1, sortedHint.increasingHint)
        else if p.2 = 4 * 3 then (p.1, sortedHint.decreasingHint)
        else (p.1, sortedHint.unknownHint)).1 < b := by
    intro p hp
    split_ifs <;> exact hp
  unfold choosePivot_func
  dsimp only
  apply key1
  by_cases h8 : b - a ≥ 8
  · rw [if_pos h8]
    by_cases h50 : b - a ≥ 50
    · rw [if_pos h50]
      dsimp only
      have h1 := medianAdjacent_func_mem less d (a + (b - a) / 4 * 1) 0
      generalize medianAdjacent_func less d (a + (b - a) / 4 * 1) 0 = r1 at h1 ⊢
      have h2 := medianAdjacent_func_mem less d (a + (b - a) / 4 * 2) r1.2
      generalize medianAdjacent_func less d (a + (b - a) / 4 * 2) r1.2 = r2 at h2 ⊢
      have h3 := medianAdjacent_func_mem less d (a + (b - a) / 4 * 3) r2.2
      generalize medianAdjacent_func less d (a + (b - a) / 4 * 3) r2.2 = r3 at h3 ⊢
      rcases median_func_mem less d r1.1 r2.1 r3.1 r3.2 with h | h | h <;> rw [h] <;> omega
    · rw [if_neg h50]
      dsimp only
      rcases median_func_mem less d (a + (b - a) / 4 * 1) (a + (b - a) / 4 * 2)
        (a + (b - a) / 4 * 3) 0 with h | h | h <;> rw [h] <;> omega
  · rw [if_neg h8]
    dsimp only
    omega

end pivot

/-! ## `partialInsertionSort_func` -/

section partialInsertion

variable (key : α → Int) (less : α → α → Bool)

theorem SortedRange.frame {lo hi a b : Nat} {d r : List α} (h : Shuffle lo hi d r)
    (hb : b ≤ lo) (hs : SortedRange key d a b) : SortedRange key r a b := by
  intro p q hp hpq hq
  rw [h.keyAt_eq key p (by omega), h.keyAt_eq key q (by omega)]
  exact hs p q hp hpq hq

theorem partialInsertionSort_scan_spec (hless : ∀ x y, less x y = decide (key x < key y))
    (d : List α) (a b : Nat) (hb : b ≤ d.length) : ∀ (fuel i : Nat), a + 1 ≤ i → i ≤ b →
    SortedRange key d a i →
    i ≤ partialInsertionSort_scan less d b fuel i ∧
    partialInsertionSort_scan less d b fuel i ≤ b ∧
    SortedRange key d a (partialInsertionSort_scan less d b fuel i) := by
  intro fuel
  induction fuel with
  | zero => intro i h1 h2 hs; exact ⟨le_refl _, h2, hs⟩
  | succ fuel ih =>
    intro i h1 h2 hs
    unfold partialInsertionSort_scan
    by_cases hc : (decide (i < b) && !Less less d i (i - 1)) = true
    · rw [if_pos hc]
      simp only [Bool.and_eq_true, decide_eq_true_eq, Bool.not_eq_true'] at hc
      have hl := (Less_false_iff key less hless d i (i - 1) (by omega) (by omega)).mp hc.2
      obtain ⟨g1, g2, g3⟩ := ih (i + 1) (by omega) (by omega) (by
        intro p q hp hpq hq
        have h3 := hs p q hp hpq
        have h4 := hs p (i - 1) hp
        rcases Nat.eq_or_lt_of_le hpq with h | h
        · subst h; exact le_refl _
        · by_cases hqi : q = i
          · subst hqi; omega
          · omega)
      exact ⟨by omega, g2, g3⟩
    · rw [if_neg hc]
      exact ⟨le_refl _, h2, hs⟩

theorem partialInsertionSort_left_eq (hless : ∀ x y, less x y = decide (key x < key y))
    (a b : Nat) : ∀ (j : Nat) (d : List α), a ≤ j → j < b → b ≤ d.length →
    LeftBound key d a b →
    partialInsertionSort_left less d j = insertionSort_inner less a d j := by
  intro j
  induction j with
  | zero => intro d _ _ _ _; rfl
  | succ j ih =>
    intro d haj hjb hb hl
    unfold partialInsertionSort_left insertionSort_inner
    rw [if_pos (by omega)]
    by_cases haj2 : a < j + 1
    · by_cases hc : Less less d (j + 1) j = true
      · simp only [hc, haj2, decide_True, Bool.and_self, if_true, Bool.not_true,
          Bool.false_eq_true, if_false]
        have hs := Shuffle_Swap a b d (j + 1) j (by omega) (by omega) (by omega) (by omega) hb
        exact ih (Swap d (j + 1) j) (by omega) (by omega) (by rw [Swap_length]; exact hb)
          (hs.leftBound key hb hl)
      · simp only [hc, haj2, decide_True, Bool.and_false, Bool.false_eq_true, if_false,
          Bool.not_eq_true, Bool.not_false, if_true]
    · have hja : a = j + 1 := by omega
      have h1 := hl (by omega) a (le_refl _) (by omega)
      have h2 : Less less d (j + 1) j = false := by
        rw [Less_false_iff key less hless d (j + 1) j (by omega) (by omega)]
        have e1 : a - 1 = j := by omega
        rw [e1, hja] at h1
        exact h1
      simp [h2, haj2]

theorem partialInsertionSort_right_spec (lo b : Nat) : ∀ (fuel : Nat) (d : List α) (j : Nat),
    lo + 1 ≤ j → b ≤ d.length →
    Shuffle lo b d (partialInsertionSort_right less b fuel d j) := by
  intro fuel
  induction fuel with
  | zero => intro d j _ _; exact Shuffle.refl _ _ _
  | succ fuel ih =>
    intro d j hj hb
    unfold partialInsertionSort_right
    by_cases hjb : j < b
    · rw [if_pos hjb]
      by_cases hc : (!Less less d j (j - 1)) = true
      · rw [if_pos hc]
        exact Shuffle.refl _ _ _
      · rw [if_neg hc]
        exact (Shuffle_Swap lo b d j (j - 1) (by omega) hjb (by omega) (by omega) hb).trans
          (ih (Swap d j (j - 1)) (j + 1) (by omega) (by rw [Swap_length]; exact hb))
    · rw [if_neg hjb]
      exact Shuffle.refl _ _ _

theorem partialInsertionSort_loop_spec (hless : ∀ x y, less x y = decide (key x < key y))
    (a b : Nat) : ∀ (steps : Nat) (d : List α) (i : Nat), a + 1 ≤ i → i ≤ b → b ≤ d.length →
    SortedRange key d a i → LeftBound key d a b →
    Shuffle a b d (partialInsertionSort_loop less a b steps d i).1 ∧
    ((partialInsertionSort_loop less a b steps d i).2 = true →
      SortedRange key (partialInsertionSort_loop less a b steps d i).1 a b) := by
  intro steps
  induction steps with
  | zero =>
    intro d i _ _ _ _ _
    exact ⟨Shuffle.refl _ _ _, fun h => by simp [partialInsertionSort_loop] at h⟩
  | succ steps ih =>
    intro d i hai hib hb hs hl
    unfold partialInsertionSort_loop
    dsimp only
    obtain ⟨s1, s2, s3⟩ := partialInsertionSort_scan_spec key less hless d a b hb b i hai hib hs
    generalize partialInsertionSort_scan less d b b i = i2 at s1 s2 s3 ⊢
    by_cases hi2 : i2 = b
    · rw [if_pos hi2]
      exact ⟨Shuffle.refl _ _ _, fun _ => hi2 ▸ s3⟩
    · rw [if_neg hi2]
      by_cases h50 : b - a < 50
      · rw [if_pos h50]
        exact ⟨Shuffle.refl _ _ _, fun h => by simp at h⟩
      · rw [if_neg h50]
        have hi2d : i2 < d.length := by omega
        have hi2e : i2 - 1 < d.length := by omega
        have hs1 := Shuffle_Swap a b d i2 (i2 - 1) (by omega) (by omega) (by omega) (by omega) hb
        have hK := keyAt_Swap key d i2 (i2 - 1) hi2d hi2e
        have hlen1 := Swap_length d i2 (i2 - 1)
        have hl1 := hs1.leftBound key hb hl
        generalize Swap d i2 (i2 - 1) = d1 at hs1 hK hlen1 hl1 ⊢
        have h2 : Shuffle a b d1 (if i2 - a ≥ 2 then partialInsertionSort_left less d1 (i2 - 1)
              else d1) ∧
            SortedRange key (if i2 - a ≥ 2 then partialInsertionSort_left less d1 (i2 - 1)
              else d1) a i2 := by
          by_cases hge : i2 - a ≥ 2
          · rw [if_pos hge, partialInsertionSort_left_eq key less hless a b (i2 - 1) d1 (by omega)
              (by omega) (by omega) hl1]
            have := insertionSort_inner_spec key less hless a (i2 - 1) (i2 - 1) d1 (by omega)
              (le_refl _) (by omega) (by
                intro p q hp hpq hq hpi hqi
                rw [hK p, hK q]
                have := s3 p q hp (by omega) (by omega)
                split_ifs <;> omega) (fun q h1 h2 => by omega)
            have e : i2 - 1 + 1 = i2 := by omega
            rw [e] at this
            exact ⟨this.1.mono (le_refl _) (by omega), this.2⟩
          · rw [if_neg hge]
            refine ⟨Shuffle.refl _ _ _, ?_⟩
            intro p q hp hpq hq
            have : p = q := by omega
            subst this
            exact le_refl _
        generalize (if i2 - a ≥ 2 then partialInsertionSort_left less d1 (i2 - 1) else d1) = d2
          at h2 ⊢
        have hlen2 := h2.1.1
        have h3 : Shuffle i2 b d2 (if b - i2 ≥ 2 then partialInsertionSort_right less b b d2
            (i2 + 1) else d2) := by
          by_cases hge : b - i2 ≥ 2
          · rw [if_pos hge]
            exact partialInsertionSort_right_spec less i2 b b d2 (i2 + 1) (le_refl _) (by omega)
          · rw [if_neg hge]
            exact Shuffle.refl _ _ _
        generalize (if b - i2 ≥ 2 then partialInsertionSort_right less b b d2 (i2 + 1) else d2)
          = d3 at h3 ⊢
        have hall : Shuffle a b d d3 := hs1.trans (h2.1.trans (h3.mono (by omega) (le_refl _)))
        obtain ⟨g1, g2⟩ := ih d3 i2 (by omega) s2 (by rw [hall.1]; exact hb)
          (SortedRange.frame key h3 (le_refl _) h2.2) (hall.leftBound key hb hl)
        exact ⟨hall.trans g1, g2⟩

theorem partialInsertionSort_func_spec (hless : ∀ x y, less x y = decide (key x < key y))
    (d : List α) (a b : Nat) (hab : a < b) (hb : b ≤ d.length) (hl : LeftBound key d a b) :
    Shuffle a b d (partialInsertionSort_func less d a b).1 ∧
    ((partialInsertionSort_func less d a b).2 = true →
      SortedRange key (partialInsertionSort_func less d a b).1 a b) := by
  unfold partialInsertionSort_func
  apply partialInsertionSort_loop_spec key less hless a b 5 d (a + 1) (le_refl _) (by omega) hb
    _ hl
  intro p q hp hpq hq
  have : p = q := by omega
  subst this
  exact le_refl _

end partialInsertion

/-! ## `heapSort_func` -/

theorem sift_step (f g : Nat → Int) (lo hi root c : Nat)
    (hc : c = 2 * root + 1 ∨ c = 2 * root + 1 + 1) (hchi : c < hi)
    (hg : ∀ k, g k = if k = c then f root else if k = root then f c else f k)
    (hlt : f root < f c)
    (hmax : (2 * root + 1 < hi → f (2 * root + 1) ≤ f c) ∧
      (2 * root + 1 + 1 < hi → f (2 * root + 1 + 1) ≤ f c))
    (A : ∀ k, lo ≤ k → k ≠ root → HeapAt f hi k)
    (B : ∀ k, lo ≤ k → (2 * k + 1 = root ∨ 2 * k + 1 + 1 = root) →
      (2 * root + 1 < hi → f (2 * root + 1) ≤ f k) ∧
      (2 * root + 1 + 1 < hi → f (2 * root + 1 + 1) ≤ f k)) (hlo : lo ≤ root) :
    (∀ k, lo ≤ k → k ≠ c → HeapAt g hi k) ∧
    (∀ k, lo ≤ k → (2 * k + 1 = c ∨ 2 * k + 1 + 1 = c) →
      (2 * c + 1 < hi → g (2 * c + 1) ≤ g k) ∧ (2 * c + 1 + 1 < hi → g (2 * c + 1 + 1) ≤ g k)) := by
  constructor
  · intro k hk hkc
    unfold HeapAt
    rw [hg (2 * k + 1), hg (2 * k + 1 + 1), hg k]
    by_cases h1 : k = root
    · subst h1
      rcases hc with rfl | rfl <;> split_ifs <;> omega
    · have hA := A k hk h1
      unfold HeapAt at hA
      by_cases h2 : 2 * k + 1 = root
      · subst h2
        have hB := B k hk (Or.inl rfl)
        rcases hc with rfl | rfl <;> split_ifs <;> omega
      · by_cases h3 : 2 * k + 1 + 1 = root
        · subst h3
          have hB := B k hk (Or.inr rfl)
          rcases hc with rfl | rfl <;> split_ifs <;> omega
        · rcases hc with rfl | rfl <;> split_ifs <;> omega
  · intro k hk hkc
    have hkr : k = root := by omega
    subst hkr
    have hcr : c ≠ k := by omega
    have hA := A c (by omega) hcr
    unfold HeapAt at hA
    rw [hg (2 * c + 1), hg (2 * c + 1 + 1), hg k]
    rcases hc with rfl | rfl <;> split_ifs <;> omega

section heap

variable (key : α → Int) (less : α → α → Bool)

theorem heapKey_Swap (first : Nat) (d : List α) (i j : Nat) (hi : first + i < d.length)
    (hj : first + j < d.length) (k : Nat) :
    heapKey key first (Swap d (first + i) (first + j)) k =
      if k = j then heapKey key first d i else if k = i then heapKey key first d j
      else heapKey key first d k := by
  unfold heapKey
  rw [keyAt_Swap key d (first + i) (first + j) hi hj]
  split_ifs <;> first | rfl | omega

theorem siftDown_loop_spec (hless : ∀ x y, less x y = decide (key x < key y))
    (lo hi first : Nat) : ∀ (fuel : Nat) (d : List α) (root : Nat), lo ≤ root →
    first + hi ≤ d.length → hi ≤ root + fuel →
    (∀ k, lo ≤ k → k ≠ root → HeapAt (heapKey key first d) hi k) →
    (∀ k, lo ≤ k → (2 * k + 1 = root ∨ 2 * k + 1 + 1 = root) →
      (2 * root + 1 < hi → heapKey key first d (2 * root + 1) ≤ heapKey key first d k) ∧
      (2 * root + 1 + 1 < hi → heapKey key first d (2 * root + 1 + 1) ≤ heapKey key first d k)) →
    Shuffle (first + lo) (first + hi) d (siftDown_loop less hi first fuel d root) ∧
    ∀ k, lo ≤ k → HeapAt (heapKey key first (siftDown_loop less hi first fuel d root)) hi k := by
  intro fuel
  induction fuel with
  | zero =>
    intro d root hlo hb hf A B
    rw [show siftDown_loop less hi first 0 d root = d from rfl]
    refine ⟨Shuffle.refl _ _ _, ?_⟩
    intro k hk
    by_cases hkr : k = root
    · subst hkr
      exact ⟨fun h => by omega, fun h => by omega⟩
    · exact A k hk hkr
  | succ fuel ih =>
    intro d root hlo hb hf A B
    unfold siftDown_loop
    dsimp only
    by_cases hch : 2 * root + 1 ≥ hi
    · rw [if_pos hch]
      refine ⟨Shuffle.refl _ _ _, ?_⟩
      intro k hk
      by_cases hkr : k = root
      · subst hkr
        exact ⟨fun h => by omega, fun h => by omega⟩
      · exact A k hk hkr
    · rw [if_neg hch]
      have hsel : ∃ c, (if (decide (2 * root + 1 + 1 < hi) &&
            Less less d (first + (2 * root + 1)) (first + (2 * root + 1) + 1)) = true
            then 2 * root + 1 + 1 else 2 * root + 1) = c ∧
          (c = 2 * root + 1 ∨ c = 2 * root + 1 + 1) ∧ c < hi ∧
          (2 * root + 1 < hi → heapKey key first d (2 * root + 1) ≤ heapKey key first d c) ∧
          (2 * root + 1 + 1 < hi →
            heapKey key first d (2 * root + 1 + 1) ≤ heapKey key first d c) := by
        by_cases hc2 : (decide (2 * root + 1 + 1 < hi) &&
            Less less d (first + (2 * root + 1)) (first + (2 * root + 1) + 1)) = true
        · rw [if_pos hc2]
          simp only [Bool.and_eq_true, decide_eq_true_eq] at hc2
          have := (Less_iff key less hless d _ _ (by omega) (by omega)).mp hc2.2
          refine ⟨_, rfl, Or.inr rfl, hc2.1, fun _ => ?_, fun _ => le_refl _⟩
          unfold heapKey
          exact le_of_lt this
        · rw [if_neg hc2]
          refine ⟨_, rfl, Or.inl rfl, by omega, fun _ => le_refl _, fun h => ?_⟩
          simp only [h, decide_True, Bool.true_and, Bool.not_eq_true] at hc2
          have := (Less_false_iff key less hless d _ _ (by omega) (by omega)).mp hc2
          unfold heapKey
          exact this
      obtain ⟨c, hceq, hc, hchi, hmax1, hmax2⟩ := hsel
      rw [hceq]
      by_cases hnl : (!Less less d (first + root) (first + c)) = true
      · rw [if_pos hnl]
        simp only [Bool.not_eq_true'] at hnl
        have hle := (Less_false_iff key less hless d _ _ (by omega) (by omega)).mp hnl
        refine ⟨Shuffle.refl _ _ _, ?_⟩
        intro k hk
        by_cases hkr : k = root
        · subst hkr
          have h1 := hmax1
          have h2 := hmax2
          unfold heapKey at h1 h2
          unfold HeapAt heapKey
          exact ⟨fun h => le_trans (h1 h) hle, fun h => le_trans (h2 h) hle⟩
        · exact A k hk hkr
      · rw [if_neg hnl]
        simp only [Bool.not_eq_true', Bool.not_eq_false] at hnl
        have hlt := (Less_iff key less hless d _ _ (by omega) (by omega)).mp hnl
        have hstep := sift_step (heapKey key first d)
          (heapKey key first (Swap d (first + root) (first + c))) lo hi root c hc hchi
          (heapKey_Swap key first d root c (by omega) (by omega)) hlt ⟨hmax1, hmax2⟩ A B hlo
        obtain ⟨g1, g2⟩ := ih (Swap d (first + root) (first + c)) c (by omega)
          (by rw [Swap_length]; exact hb) (by omega) hstep.1 hstep.2
        exact ⟨(Shuffle_Swap (first + lo) (first + hi) d (first + root) (first + c) (by omega)
          (by omega) (by omega) (by omega) hb).trans g1, g2⟩

theorem heapSort_build_spec (hless : ∀ x y, less x y = decide (key x < key y))
    (hi first : Nat) : ∀ (n : Nat) (d : List α), first + hi ≤ d.length →
    (∀ k, n ≤ k → HeapAt (heapKey key first d) hi k) →
    Shuffle first (first + hi) d (heapSort_build less hi first n d) ∧
    ∀ k, HeapAt (heapKey key first (heapSort_build less hi first n d)) hi k := by
  intro n
  induction n with
  | zero =>
    intro d hb h
    exact ⟨Shuffle.refl _ _ _, fun k => h k (Nat.zero_le _)⟩
  | succ i ih =>
    intro d hb h
    unfold heapSort_build siftDown_func
    obtain ⟨s1, s2⟩ := siftDown_loop_spec key less hless i hi first hi d i (le_refl _) hb
      (by omega) (fun k hk hki => h k (by omega)) (fun k hk hp => by omega)
    obtain ⟨g1, g2⟩ := ih (siftDown_loop less hi first hi d i) (by rw [s1.1]; exact hb) s2
    exact ⟨(s1.mono (by omega) (le_refl _)).trans g1, g2⟩

theorem heap_root_max (f : Nat → Int) (n : Nat) (h : ∀ k, HeapAt f n k) :
    ∀ k, k < n → f k ≤ f 0 := by
  intro k
  induction k using Nat.strong_induction_on with
  | _ k ih =>
    intro hk
    by_cases h0 : k = 0
    · subst h0; exact le_refl _
    · have hp := h ((k - 1) / 2)
      have ihp := ih ((k - 1) / 2) (by omega) (by omega)
      unfold HeapAt at hp
      rcases Nat.even_or_odd k with he | ho
      · obtain ⟨m, hm⟩ := he
        have e1 : (k - 1) / 2 = m - 1 := by omega
        have e2 : 2 * (m - 1) + 1 + 1 = k := by omega
        rw [e1] at hp ihp
        rw [e2] at hp
        exact le_trans (hp.2 hk) ihp
      · obtain ⟨m, hm⟩ := ho
        have e1 : (k - 1) / 2 = m := by omega
        have e2 : 2 * m + 1 = k := by omega
        rw [e1] at hp ihp
        rw [e2] at hp
        exact le_trans (hp.1 hk) ihp

theorem heapSort_pop_spec (hless : ∀ x y, less x y = decide (key x < key y))
    (hi first : Nat) : ∀ (n : Nat) (d : List α), n ≤ hi → first + hi ≤ d.length →
    (∀ k, HeapAt (heapKey key first d) n k) →
    SortedRange key d (first + n) (first + hi) →
    (∀ k q, k < n → n ≤ q → q < hi → heapKey key first d k ≤ heapKey key first d q) →
    Shuffle first (first + hi) d (heapSort_pop less first n d) ∧
    SortedRange key (heapSort_pop less first n d) first (first + hi) := by
  intro n
  induction n with
  | zero =>
    intro d _ _ _ hs _
    exact ⟨Shuffle.refl _ _ _, hs⟩
  | succ i ih =>
    intro d hn hb hheap hs hle
    unfold heapSort_pop siftDown_func
    have hmax := heap_root_max (heapKey key first d) (i + 1) hheap
    have hK := heapKey_Swap key first d 0 i (by omega) (by omega)
    have hs1 := Shuffle_Swap first (first + hi) d (first + 0) (first + i) (by omega) (by omega)
      (by omega) (by omega) hb
    have hlen1 := Swap_length d (first + 0) (first + i)
    rw [show Swap d first (first + i) = Swap d (first + 0) (first + i) from rfl]
    generalize Swap d (first + 0) (first + i) = d1 at hK hs1 hlen1 ⊢
    obtain ⟨s1, s2⟩ := siftDown_loop_spec key less hless 0 i first i d1 0 (le_refl _) (by omega)
      (by omega) (by
        intro k _ hk0
        have := hheap k
        unfold HeapAt at this ⊢
        rw [hK (2 * k + 1), hK (2 * k + 1 + 1), hK k]
        split_ifs <;> first | contradiction | omega) (fun k _ hp => by omega)
    generalize siftDown_loop less i first i d1 0 = d2 at s1 s2 ⊢
    have hlen2 := s1.1
    have hfr : ∀ q, i ≤ q → heapKey key first d2 q = heapKey key first d1 q := by
      intro q hq
      unfold heapKey
      exact s1.keyAt_eq key (first + q) (by omega)
    have hup : ∀ q, i ≤ q → q < hi → ∀ k, k < i →
        heapKey key first d2 k ≤ heapKey key first d1 q := by
      intro q hq1 hq2 k hk
      have := s1.upper key (by omega) (heapKey key first d1 q) (by
        intro k2 h1 h2
        have e : k2 = first + (k2 - first) := by omega
        rw [e]
        show heapKey key first d1 (k2 - first) ≤ heapKey key first d1 q
        rw [hK (k2 - first), hK q]
        have := hmax (k2 - first)
        have := hmax i
        have := hle (k2 - first) q
        have := hle 0 q
        have := hle i q
        have : k2 - first = 0 → heapKey key first d (k2 - first) = heapKey key first d 0 :=
          fun h => by rw [h]
        split_ifs <;> omega) (first + k) (by omega) (by omega)
      exact this
    obtain ⟨g1, g2⟩ := ih d2 (by omega) (by omega) (fun k => s2 k (Nat.zero_le _)) (by
        intro p q hp hpq hq
        have e1 : p = first + (p - first) := by omega
        have e2 : q = first + (q - first) := by omega
        rw [e1, e2]
        show heapKey key first d2 (p - first) ≤ heapKey key first d2 (q - first)
        rw [hfr _ (by omega), hfr _ (by omega), hK (p - first), hK (q - first)]
        have h1 := hs (first + (p - first)) (first + (q - first))
        have h2 := hle 0 (q - first)
        have h3 : heapKey key first d (p - first) = keyAt key d (first + (p - first)) := rfl
        have h4 : heapKey key first d (q - first) = keyAt key d (first + (q - first)) := rfl
        have h5 : p - first = q - first →
            heapKey key first d (p - first) = heapKey key first d (q - first) :=
          fun h => by rw [h]
        split_ifs <;> omega) (by
        intro k q hk hq1 hq2
        rw [hfr q hq1]
        exact hup q hq1 hq2 k hk)
    exact ⟨hs1.trans ((s1.mono (by omega) (by omega)).trans g1), g2⟩

theorem heapSort_func_spec (hless : ∀ x y, less x y = decide (key x < key y))
    (d : List α) (a b : Nat) (hab : a ≤ b) (hb : b ≤ d.length) :
    Shuffle a b d (heapSort_func less d a b) ∧
    SortedRange key (heapSort_func less d a b) a b := by
  unfold heapSort_func
  dsimp only
  have e : b = a + (b - a) := by omega
  obtain ⟨b1, b2⟩ := heapSort_build_spec key less hless (b - a) a ((b - a - 1) / 2 + 1) d
    (by omega) (fun k hk => ⟨fun h => by omega, fun h => by omega⟩)
  generalize heapSort_build less (b - a) a ((b - a - 1) / 2 + 1) d = d1 at b1 b2 ⊢
  obtain ⟨p1, p2⟩ := heapSort_pop_spec key less hless (b - a) a (b - a) d1 (le_refl _)
    (by rw [b1.1]; omega) b2 (fun p q hp hpq hq => by omega) (fun k q hk hq1 hq2 => by omega)
  rw [← e] at b1 p1 p2
  exact ⟨b1.trans p1, p2⟩

end heap

/-! ## `pdqsort_func` and `Slice` -/

section pdq

variable (key : α → Int) (less : α → α → Bool)

theorem SortedRange.frame_right {lo hi a b : Nat} {d r : List α} (h : Shuffle lo hi d r)
    (ha : hi ≤ a) (hs : SortedRange key d a b) : SortedRange key r a b := by
  intro p q hp hpq hq
  rw [h.keyAt_eq key p (by omega), h.keyAt_eq key q (by omega)]
  exact hs p q hp hpq hq

theorem SortedRange.join {r : List α} {a b mid : Nat} (h1 : SortedRange key r a mid)
    (h2 : SortedRange key r (mid + 1) b)
    (h3 : ∀ k, a ≤ k → k < mid → keyAt key r k ≤ keyAt key r mid)
    (h4 : ∀ k, mid < k → k < b → keyAt key r mid ≤ keyAt key r k) : SortedRange key r a b := by
  intro p q hp hpq hq
  have g1 := h1 p q hp hpq
  have g2 := h2 p q
  have g3 := h3 p hp
  have g4 := h4 q
  have g5 : p = mid → keyAt key r p = keyAt key r mid := fun h => by rw [h]
  have g6 : q = mid → keyAt key r q = keyAt key r mid := fun h => by rw [h]
  omega

theorem pdqsort_func_spec (hless : ∀ x y, less x y = decide (key x < key y)) :
    ∀ (fuel : Nat) (d : List α) (a b limit : Nat) (wasBalanced wasPartitioned : Bool),
    a ≤ b → b ≤ d.length → b - a < fuel → LeftBound key d a b →
    ∃ r, pdqsort_func less fuel d a b limit wasBalanced wasPartitioned = some r ∧
      Shuffle a b d r ∧ SortedRange key r a b := by
  intro fuel
  induction fuel with
  | zero => intro d a b limit wb wp _ _ hf _; omega
  | succ fuel ih =>
    intro d a b limit wb wp hab hb hf hl
    unfold pdqsort_func
    dsimp only
    by_cases h12 : b - a ≤ 12
    · rw [if_pos h12]
      exact ⟨_, rfl, insertionSort_func_spec key less hless d a b hb⟩
    rw [if_neg h12]
    by_cases hlim : limit = 0
    · rw [if_pos hlim]
      exact ⟨_, rfl, heapSort_func_spec key less hless d a b hab hb⟩
    rw [if_neg hlim]
    -- breakPatterns
    have hs1 : Shuffle a b d (if (!wb) = true then breakPatterns_func d a b else d) := by
      split_ifs
      · exact breakPatterns_func_spec d a b hb
      · exact Shuffle.refl _ _ _
    generalize (if (!wb) = true then breakPatterns_func d a b else d) = d1 at hs1 ⊢
    generalize (if (!wb) = true then limit - 1 else limit) = limit2
    have hb1 : b ≤ d1.length := by rw [hs1.1]; exact hb
    -- choosePivot
    have hph := choosePivot_func_mem less d1 a b (by omega)
    generalize choosePivot_func less d1 a b = ph at hph ⊢
    generalize decide (ph.2 = sortedHint.decreasingHint) = decreasing
    have hs2 : Shuffle a b d1 (if decreasing = true then reverseRange_func d1 a b else d1) := by
      split_ifs
      · exact reverseRange_func_spec d1 a b (by omega) hb1
      · exact Shuffle.refl _ _ _
    generalize (if decreasing = true then reverseRange_func d1 a b else d1) = d2 at hs2 ⊢
    have hpiv : a ≤ (if decreasing = true then b - 1 - (ph.1 - a) else ph.1) ∧
        (if decreasing = true then b - 1 - (ph.1 - a) else ph.1) < b := by
      split_ifs <;> omega
    generalize (if decreasing = true then b - 1 - (ph.1 - a) else ph.1) = pivot at hpiv ⊢
    generalize (if decreasing = true then sortedHint.increasingHint else ph.2) = hint
    have hb2 : b ≤ d2.length := by rw [hs2.1]; exact hb1
    have hl2 : LeftBound key d2 a b := (hs1.trans hs2).leftBound key hb hl
    -- partialInsertionSort
    have hs3 : Shuffle a b d2
          (if (wb && wp && decide (hint = sortedHint.increasingHint)) = true then
            partialInsertionSort_func less d2 a b else (d2, false)).1 ∧
        ((if (wb && wp && decide (hint = sortedHint.increasingHint)) = true then
            partialInsertionSort_func less d2 a b else (d2, false)).2 = true →
          SortedRange key (if (wb && wp && decide (hint = sortedHint.increasingHint)) = true then
            partialInsertionSort_func less d2 a b else (d2, false)).1 a b) := by
      split_ifs
      · exact partialInsertionSort_func_spec key less hless d2 a b (by omega) hb2 hl2
      · exact ⟨Shuffle.refl _ _ _, fun h => by simp at h⟩
    generalize (if (wb && wp && decide (hint = sortedHint.increasingHint)) = true then
            partialInsertionSort_func less d2 a b else (d2, false)) = ps at hs3 ⊢
    obtain ⟨d3, flag⟩ := ps
    dsimp only at hs3 ⊢
    have hs03 : Shuffle a b d d3 := hs1.trans (hs2.trans hs3.1)
    by_cases hflag : flag = true
    · rw [if_pos hflag]
      exact ⟨_, rfl, hs03, hs3.2 hflag⟩
    rw [if_neg hflag]
    have hb3 : b ≤ d3.length := by rw [hs03.1]; exact hb
    have hl3 : LeftBound key d3 a b := hs03.leftBound key hb hl
    by_cases hpe : (decide (a > 0) && !Less less d3 (a - 1) pivot) = true
    · -- partitionEqual
      rw [if_pos hpe]
      simp only [Bool.and_eq_true, decide_eq_true_eq, Bool.not_eq_true'] at hpe
      have hle := (Less_false_iff key less hless d3 (a - 1) pivot (by omega) (by omega)).mp hpe.2
      obtain ⟨e1, e2, e3, e4, e5⟩ := partitionEqual_func_spec key less hless d3 a b pivot hb3
        hpiv.1 hpiv.2
      generalize partitionEqual_func less d3 a b pivot = pe at e1 e2 e3 e4 e5 ⊢
      obtain ⟨d4, mid⟩ := pe
      dsimp only at e1 e2 e3 e4 e5 ⊢
      have hb4 : b ≤ d4.length := by rw [e1.1]; exact hb3
      have hlow := e1.lower key hb3 (keyAt key d3 (a - 1)) (hl3 hpe.1)
      obtain ⟨r, hr, rs, rsort⟩ := ih d4 mid b limit2 wb wp e3 hb4 (by omega) (by
        intro _ k hk1 hk2
        have := e4 (mid - 1) (by omega) (by omega)
        have := e5 k hk1 hk2
        omega)
      refine ⟨r, hr, hs03.trans (e1.trans (rs.mono (by omega) (le_refl _))), ?_⟩
      have hrlow := rs.lower key hb4 (keyAt key d3 pivot + 1) (fun k h1 h2 => by
        have := e5 k h1 h2
        omega)
      intro p q hp hpq hq
      have g1 := rsort p q
      have g2 := rs.keyAt_eq key p
      have g3 := rs.keyAt_eq key q
      have g4 := e4 p hp
      have g5 := e4 q (by omega)
      have g6 := hlow p hp
      have g7 := hlow q (by omega)
      have g8 := hrlow q
      omega
    · -- partition
      rw [if_neg hpe]
      obtain ⟨t1, t2, t3, t4, t5⟩ := partition_func_spec key less hless d3 a b pivot hb3
        hpiv.1 hpiv.2
      generalize partition_func less d3 a b pivot = pt at t1 t2 t3 t4 t5 ⊢
      obtain ⟨d4, mid, ap⟩ := pt
      dsimp only at t1 t2 t3 t4 t5 ⊢
      have hb4 : b ≤ d4.length := by rw [t1.1]; exact hb3
      have hl4 : LeftBound key d4 a b := t1.leftBound key hb3 hl3
      by_cases hside : mid - a < b - mid
      · rw [if_pos hside]
        obtain ⟨r1, hr1, rs1, rsort1⟩ := ih d4 a mid limit2 true true t2 (by omega) (by omega)
          (fun h0 k hk1 hk2 => hl4 h0 k hk1 (by omega))
        rw [hr1]
        dsimp only
        have hbr1 : b ≤ r1.length := by rw [rs1.1]; exact hb4
        obtain ⟨r2, hr2, rs2, rsort2⟩ := ih r1 (mid + 1) b limit2
          (decide (mid - a ≥ (b - a) / 8)) ap (by omega) hbr1 (by omega) (by
            intro _ k hk1 hk2
            rw [show mid + 1 - 1 = mid from rfl, rs1.keyAt_eq key mid (by omega),
              rs1.keyAt_eq key k (by omega)]
            exact t5 k (by omega) hk2)
        refine ⟨r2, hr2, hs03.trans (t1.trans ((rs1.mono (le_refl _) (by omega)).trans
          (rs2.mono (by omega) (le_refl _)))), ?_⟩
        have hmid : keyAt key r2 mid = keyAt key d4 mid := by
          rw [rs2.keyAt_eq key mid (by omega), rs1.keyAt_eq key mid (by omega)]
        apply SortedRange.join key (SortedRange.frame key rs2 (by omega) rsort1) rsort2
        · intro k hk1 hk2
          rw [hmid, rs2.keyAt_eq key k (by omega)]
          exact rs1.upper key (by omega) (keyAt key d4 mid)
            (fun k h1 h2 => le_of_lt (t4 k h1 h2)) k hk1 hk2
        · intro k hk1 hk2
          rw [hmid]
          exact rs2.lower key hbr1 (keyAt key d4 mid) (fun k h1 h2 => by
            rw [rs1.keyAt_eq key k (by omega)]
            exact t5 k (by omega) h2) k (by omega) hk2
      · rw [if_neg hside]
        obtain ⟨r1, hr1, rs1, rsort1⟩ := ih d4 (mid + 1) b limit2 true true (by omega) hb4
          (by omega) (by
            intro _ k hk1 hk2
            exact t5 k (by omega) hk2)
        rw [hr1]
        dsimp only
        have hbr1 : b ≤ r1.length := by rw [rs1.1]; exact hb4
        obtain ⟨r2, hr2, rs2, rsort2⟩ := ih r1 a mid limit2
          (decide (b - mid ≥ (b - a) / 8)) ap t2 (by omega) (by omega) (by
            intro h0 k hk1 hk2
            rw [rs1.keyAt_eq key (a - 1) (by omega), rs1.keyAt_eq key k (by omega)]
            exact hl4 h0 k hk1 (by omega))
        refine ⟨r2, hr2, hs03.trans (t1.trans ((rs1.mono (by omega) (le_refl _)).trans
          (rs2.mono (le_refl _) (by omega)))), ?_⟩
        have hmid : keyAt key r2 mid = keyAt key d4 mid := by
          rw [rs2.keyAt_eq key mid (by omega), rs1.keyAt_eq key mid (by omega)]
        apply SortedRange.join key rsort2 (SortedRange.frame_right key rs2 (by omega) rsort1)
        · intro k hk1 hk2
          rw [hmid]
          exact rs2.upper key (by omega) (keyAt key d4 mid) (fun k h1 h2 => by
            rw [rs1.keyAt_eq key k (by omega)]
            exact le_of_lt (t4 k h1 h2)) k hk1 hk2
        · intro k hk1 hk2
          rw [hmid, rs2.keyAt_eq key k (by omega)]
          exact rs1.lower key hb4 (keyAt key d4 mid) (fun k h1 h2 => t5 k (by omega) h2) k
            (by omega) hk2

end pdq

/-! ## `Slice` -/

section slice

variable (key : α → Int) (less : α → α → Bool)

/-- The depth bound that `Slice` gives to `pdqsort_func` is never used up,
and the result is the input rearranged and in order. -/
theorem pdqsort_func_isSome (hless : ∀ x y, less x y = decide (key x < key y)) (x : List α) :
    pdqsort_func less (x.length + 1) x 0 x.length (bitsLen x.length) true true =
        some (Slice x less) ∧
      Shuffle 0 x.length x (Slice x less) ∧ SortedRange key (Slice x less) 0 x.length := by
  obtain ⟨r, hr, hs, hsort⟩ := pdqsort_func_spec key less hless (x.length + 1) x 0 x.length
    (bitsLen x.length) true true (Nat.zero_le _) (le_refl _) (by omega)
    (fun h => absurd h (lt_irrefl 0))
  have e : Slice x less = r := by
    unfold Slice
    dsimp only
    rw [hr]
    rfl
  rw [e]
  exact ⟨hr, hs, hsort⟩

theorem Slice_perm (hless : ∀ x y, less x y = decide (key x < key y)) (x : List α) :
    (Slice x less).Perm x :=
  (pdqsort_func_isSome key less hless x).2.1.2.2.2

theorem Slice_length (hless : ∀ x y, less x y = decide (key x < key y)) (x : List α) :
    (Slice x less).length = x.length :=
  (pdqsort_func_isSome key less hless x).2.1.1

theorem Slice_adjacent (hless : ∀ x y, less x y = decide (key x < key y)) (x : List α)
    (i : Nat) (h : i + 1 < (Slice x less).length) :
    less ((Slice x less).get ⟨i + 1, h⟩) ((Slice x less).get ⟨i, by omega⟩) = false := by
  have hsort := (pdqsort_func_isSome key less hless x).2.2 i (i + 1) (Nat.zero_le _)
    (by omega) (by rw [← Slice_length key less hless x]; exact h)
  unfold keyAt at hsort
  rw [List.getElem?_eq_getElem (by omega : i < (Slice x less).length),
    List.getElem?_eq_getElem h] at hsort
  rw [hless]
  simp only [List.get_eq_getElem, decide_eq_false_iff_not, not_lt]
  exact hsort

theorem Slice_small (x : List α) (h : x.length ≤ 12) :
    Slice x less = insertionSort_func less x 0 x.length := by
  unfold Slice pdqsort_func
  simp [h]

theorem Slice_withKey_small (hless : ∀ x y, less x y = decide (key x < key y)) (x : List α)
    (h : x.length ≤ 12) (t : Int) : withKey key t (Slice x less) = withKey key t x := by
  rw [Slice_small less x h]
  exact insertionSort_func_withKey key less hless x 0 x.length (le_refl _) t

end slice

end sort

/-! ## The request helper and the two plain operations -/

theorem append_singleton_inj {β : Type} {l : List β} {x y : β} (h : l ++ [x] = l ++ [y]) :
    x = y := by
  have h2 := List.append_cancel_left h
  simpa using h2

theorem sendRequest_eq {α : Type} (std : Std) (c : Client) (decodeV : String → Except error α)
    (req : Request) (w : World) :
    c.sendRequest std decodeV req w =
      (outcome std decodeV (w.transport (c.outgoing req)),
        { w with sent := w.sent ++ [c.outgoing req] }) := by
  simp only [Client.sendRequest, http.Client.Do, Client.outgoing, outcome]
  cases w.transport _ with
  | error err => rfl
  | ok res =>
    simp only [http.StatusOK, http.StatusBadRequest, fmt.d]
    split
    · cases std.decodeErrorResponse res.Body <;> rfl
    · cases decodeV res.Body <;> rfl

theorem sendRequest_answered {α : Type} (std : Std) (c : Client)
    (decodeV : String → Except error α) (req : Request) (w : World)
    (r : Except error Response) (h : Answered w (c.sendRequest std decodeV req w).2 r) :
    (c.sendRequest std decodeV req w).1 = outcome std decodeV r := by
  obtain ⟨out, hs, ht⟩ := h
  rw [sendRequest_eq] at hs ⊢
  have := append_singleton_inj hs
  simp only
  rw [this, ht]

theorem filter_loop_eq (res : List Price) (acc : List Price) :
    res.foldl (fun acc price => if isGeneralForecast price then acc ++ [price] else acc) acc =
      acc ++ res.filter isGeneralForecast := by
  induction res generalizing acc with
  | nil => simp
  | cons p ps ih =>
    simp only [List.foldl_cons, ih, List.filter_cons]
    split <;> simp

/-- The forecast operation, step by step: two clock reads, the request, the
outcome of the request helper, then filter and sort. -/
theorem GetForecastGeneralPrices_eq (std : Std) (c : Client) (ctx : Context) (site : Site)
    (w : World) :
    c.GetForecastGeneralPrices std ctx site w =
      match http.NewRequest std "GET"
        (c.BaseURL ++ "/sites/" ++ site.Id ++ "/prices?resolution=30&startDate="
          ++ (w.clock w.reads).Format yyyy_mm_dd ++ "&endDate="
          ++ ((w.clock (w.reads + 1)).Add (time.Hour * 24)).Format yyyy_mm_dd) with
      | .error err => (.error err, { w with reads := w.reads + 1 + 1 })
      | .ok req =>
        (match outcome std std.decodePrices (w.transport (c.outgoing (req.WithContext ctx))) with
          | .error err => .error err
          | .ok res => .ok (sort.Slice (res.filter isGeneralForecast) startsBefore),
          { w with reads := w.reads + 1 + 1, sent := w.sent ++ [c.outgoing (req.WithContext ctx)] }) := by
  simp only [Client.GetForecastGeneralPrices, time.Now]
  cases http.NewRequest std "GET" _ with
  | error err => rfl
  | ok req =>
    simp only [sendRequest_eq]
    cases outcome std std.decodePrices (w.transport (c.outgoing (req.WithContext ctx))) with
    | error err => rfl
    | ok res => simp [filter_loop_eq]

/-- The forecast operation, once the transport has answered: the outcome of
the request helper, then filter and sort. -/
theorem GetForecastGeneralPrices_answered (std : Std) (c : Client) (ctx : Context) (site : Site)
    (w : World) (r : Except error Response)
    (h : Answered w (c.GetForecastGeneralPrices std ctx site w).2 r) :
    (c.GetForecastGeneralPrices std ctx site w).1 =
      match outcome std std.decodePrices r with
      | .error err => .error err
      | .ok res => .ok (sort.Slice (res.filter isGeneralForecast) startsBefore) := by
  obtain ⟨out, hs, ht⟩ := h
  rw [GetForecastGeneralPrices_eq] at hs ⊢
  cases hreq : http.NewRequest std "GET" _ with
  | error err =>
    rw [hreq] at hs
    simp at hs
  | ok req =>
    rw [hreq] at hs
    simp only at hs ⊢
    have := append_singleton_inj hs
    rw [← ht, ← this]

/-- A successful forecast call returns the sorted filter of some array. -/
theorem GetForecastGeneralPrices_ok (std : Std) (c : Client) (ctx : Context) (site : Site)
    (w : World) (r : List Price) (h : (c.GetForecastGeneralPrices std ctx site w).1 = .ok r) :
    ∃ res : List Price, r = sort.Slice (res.filter isGeneralForecast) startsBefore := by
  rw [GetForecastGeneralPrices_eq] at h
  cases hreq : http.NewRequest std "GET" _ with
  | error err =>
    rw [hreq] at h
    simp at h
  | ok req =>
    rw [hreq] at h
    simp only at h
    cases hout : outcome std std.decodePrices (w.transport (c.outgoing (req.WithContext ctx))) with
    | error err =>
      rw [hout] at h
      simp at h
    | ok res =>
      rw [hout] at h
      simp only [Except.ok.injEq] at h
      exact ⟨res, h.symm⟩

/-! ### The operations, from what the parsers and the transport answer -/

theorem NewRequest_ok (std : Std) (url : String) (h : std.urlParse url = none) :
    http.NewRequest std "GET" url =
      .ok { Method := "GET", URL := url, Header := [], ctx := context.Background } := by
  unfold http.NewRequest
  rw [h]

theorem GetSites_sent (std : Std) (c : Client) (ctx : Context) (w : World)
    (h : std.urlParse (c.BaseURL ++ "/sites") = none) :
    (c.GetSites std ctx w).1 =
      outcome std std.decodeSites (w.transport (c.request ctx (c.BaseURL ++ "/sites"))) := by
  unfold Client.GetSites
  rw [NewRequest_ok std _ h]
  simp only [sendRequest_eq]
  unfold Client.request Request.WithContext
  cases outcome std std.decodeSites _ <;> rfl

theorem GetCurrentPrices_sent (std : Std) (c : Client) (ctx : Context) (site : Site)
    (w : World)
    (h : std.urlParse (c.BaseURL ++ "/sites/" ++ site.Id ++ "/prices/current?resolution=30") =
      none) :
    (c.GetCurrentPrices std ctx site w).1 =
      outcome std std.decodePrices (w.transport (c.request ctx
        (c.BaseURL ++ "/sites/" ++ site.Id ++ "/prices/current?resolution=30"))) := by
  unfold Client.GetCurrentPrices
  rw [NewRequest_ok std _ h]
  simp only [sendRequest_eq]
  unfold Client.request Request.WithContext
  cases outcome std std.decodePrices _ <;> rfl

theorem GetForecastGeneralPrices_sent (std : Std) (c : Client) (ctx : Context) (site : Site)
    (w : World)
    (h : std.urlParse (c.forecastURL site (w.clock w.reads) (w.clock (w.reads + 1))) = none) :
    (c.GetForecastGeneralPrices std ctx site w).1 =
      match outcome std std.decodePrices (w.transport (c.request ctx
        (c.forecastURL site (w.clock w.reads) (w.clock (w.reads + 1))))) with
      | .error err => .error err
      | .ok res => .ok (sort.Slice (res.filter isGeneralForecast) startsBefore) := by
  rw [GetForecastGeneralPrices_eq]
  unfold Client.forecastURL at h ⊢
  rw [NewRequest_ok std _ h]
  rfl

/-! ## The claims -/

theorem startsBefore_eq (x y : Price) :
    startsBefore x y = decide (x.StartTime.nanos < y.StartTime.nanos) := rfl

/-- C1: every price returned by a successful `GetForecastGeneralPrices` has
type `ForecastInterval` and channel type `general`. -/
theorem forecast_only_general_forecast (std : Std) (c : Client) (ctx : Context) (site : Site)
    (w : World) (r : List Price) (h : (c.GetForecastGeneralPrices std ctx site w).1 = .ok r) :
    ∀ p ∈ r, p.Type_ = "ForecastInterval" ∧ p.ChannelType = "general" := by
  obtain ⟨res, hres⟩ := GetForecastGeneralPrices_ok std c ctx site w r h
  intro p hp
  rw [hres] at hp
  have hp2 := (sort.Slice_perm (fun q : Price => q.StartTime.nanos) startsBefore
    startsBefore_eq (res.filter isGeneralForecast)).mem_iff.mp hp
  have hp3 := (List.mem_filter.mp hp2).2
  simpa [isGeneralForecast] using hp3

/-- C2: the sequence returned by a successful `GetForecastGeneralPrices` is
non-decreasing by start time: no entry starts before the entry in front of
it. -/
theorem forecast_sorted_by_start (std : Std) (c : Client) (ctx : Context) (site : Site)
    (w : World) (r : List Price) (h : (c.GetForecastGeneralPrices std ctx site w).1 = .ok r)
    (i : Nat) (hi : i + 1 < r.length) :
    (r.get ⟨i + 1, hi⟩).StartTime.Before (r.get ⟨i, by omega⟩).StartTime = false := by
  obtain ⟨res, hres⟩ := GetForecastGeneralPrices_ok std c ctx site w r h
  subst hres
  exact sort.Slice_adjacent (fun q : Price => q.StartTime.nanos) startsBefore startsBefore_eq
    (res.filter isGeneralForecast) i hi

/-- C3: on a success response whose body decodes to the array `A`,
`GetForecastGeneralPrices` succeeds and returns a permutation of the entries
of `A` that are general forecasts; when there is none it returns the empty
sequence. -/
theorem forecast_is_permutation_of_matches (std : Std) (c : Client) (ctx : Context)
    (site : Site) (w : World) (N : Int) (body : String) (A : List Price)
    (hsent : Answered w (c.GetForecastGeneralPrices std ctx site w).2
      (.ok { StatusCode := N, Body := body }))
    (hlo : 200 ≤ N) (hhi : N < 400) (hA : std.decodePrices body = .ok A) :
    ∃ r, (c.GetForecastGeneralPrices std ctx site w).1 = .ok r ∧
      r.Perm (A.filter (fun p => p.Type_ == "ForecastInterval" && p.ChannelType == "general")) ∧
      ((∀ p ∈ A, ¬ (p.Type_ = "ForecastInterval" ∧ p.ChannelType = "general")) → r = []) := by
  have h := GetForecastGeneralPrices_answered std c ctx site w _ hsent
  have ho : outcome std std.decodePrices (.ok { StatusCode := N, Body := body }) = .ok A := by
    unfold outcome
    dsimp only
    rw [if_neg (by omega), hA]
  rw [ho] at h
  dsimp only at h
  have hperm := sort.Slice_perm (fun q : Price => q.StartTime.nanos) startsBefore
    startsBefore_eq (A.filter isGeneralForecast)
  refine ⟨_, h, hperm, ?_⟩
  intro hnone
  have hnil : A.filter isGeneralForecast = [] := by
    rw [List.filter_eq_nil_iff]
    intro p hp
    have := hnone p hp
    simpa [isGeneralForecast] using this
  rw [hnil] at hperm ⊢
  exact List.Perm.eq_nil hperm

/-- Witness of C1: a response with a general forecast, a current interval and
a feed-in forecast. -/
theorem forecast_only_general_forecast_witness :
    (demoClient.GetForecastGeneralPrices (pricesStd mixed) context.Background demoSite
        (demoWorld noon noon (.ok { StatusCode := 200, Body := "[]" }))).1 =
      .ok [demoPrice "ForecastInterval" "general" "early" 1800,
        demoPrice "ForecastInterval" "general" "late" 3600] ∧
    (demoPrice "ForecastInterval" "general" "late" 3600).Type_ = "ForecastInterval" ∧
      (demoPrice "ForecastInterval" "general" "late" 3600).ChannelType = "general" :=
  ⟨by decide,
    forecast_only_general_forecast (pricesStd mixed) demoClient context.Background demoSite
      (demoWorld noon noon (.ok { StatusCode := 200, Body := "[]" }))
      [demoPrice "ForecastInterval" "general" "early" 1800,
        demoPrice "ForecastInterval" "general" "late" 3600] (by decide) _
      (List.mem_cons_of_mem _ (List.mem_cons_self _ _))⟩

/-- Witness of C2: the two general forecasts of the response come back in
the order of their start times. -/
theorem forecast_sorted_by_start_witness :
    (demoClient.GetForecastGeneralPrices (pricesStd mixed) context.Background demoSite
        (demoWorld noon noon (.ok { StatusCode := 200, Body := "[]" }))).1 =
      .ok [demoPrice "ForecastInterval" "general" "early" 1800,
        demoPrice "ForecastInterval" "general" "late" 3600] ∧
    (demoPrice "ForecastInterval" "general" "late" 3600).StartTime.Before
      (demoPrice "ForecastInterval" "general" "early" 1800).StartTime = false :=
  ⟨by decide,
    forecast_sorted_by_start (pricesStd mixed) demoClient context.Background demoSite
      (demoWorld noon noon (.ok { StatusCode := 200, Body := "[]" }))
      [demoPrice "ForecastInterval" "general" "early" 1800,
        demoPrice "ForecastInterval" "general" "late" 3600] (by decide) 0 (by decide)⟩

/-- Witness of C3: the same response; the result is a permutation of its two
general forecasts. -/
theorem forecast_is_permutation_of_matches_witness :
    ∃ r, (demoClient.GetForecastGeneralPrices (pricesStd mixed) context.Background demoSite
        (demoWorld noon noon (.ok { StatusCode := 200, Body := "[]" }))).1 = .ok r ∧
      r.Perm (mixed.filter
        (fun p => p.Type_ == "ForecastInterval" && p.ChannelType == "general")) ∧
      ((∀ p ∈ mixed, ¬ (p.Type_ = "ForecastInterval" ∧ p.ChannelType = "general")) → r = []) :=
  forecast_is_permutation_of_matches (pricesStd mixed) demoClient context.Background demoSite
    (demoWorld noon noon (.ok { StatusCode := 200, Body := "[]" })) 200 "[]" mixed
    ⟨_, rfl, rfl⟩ (by decide) (by decide) rfl

/-- C4, as stated, fails: on a response of thirteen general forecasts, twelve
of them with the same start time, `GetForecastGeneralPrices` returns the
entry tagged `p6` in front of the entry tagged `p0`, although both start at
the same time and `p0` comes first in the response. -/
theorem forecast_sort_not_stable :
    thirteen.map Price.NemTime =
      ["p0", "p1", "p2", "p3", "p4", "p5", "p6", "p7", "p8", "p9", "p10", "p11", "p12"] ∧
    thirteen.map (fun p => p.StartTime.nanos / 1000000000) =
      [1000, 1000, 1000, 1000, 1000, 1000, 1000, 1000, 1000, 1000, 1000, 1000, 0] ∧
    ∃ r, (demoClient.GetForecastGeneralPrices (pricesStd thirteen) context.Background demoSite
        (demoWorld noon noon (.ok { StatusCode := 200, Body := "[]" }))).1 = .ok r ∧
      r.map Price.NemTime =
        ["p12", "p6", "p2", "p3", "p4", "p5", "p0", "p7", "p8", "p9", "p10", "p11", "p1"] ∧
      sort.withKey (fun p : Price => p.StartTime.nanos) 1000000000000 r ≠
        sort.withKey (fun p : Price => p.StartTime.nanos) 1000000000000 thirteen := by
  refine ⟨by decide, by decide, sort.Slice (thirteen.filter isGeneralForecast) startsBefore,
    ?_, by decide, by decide⟩
  exact GetForecastGeneralPrices_answered (pricesStd thirteen) demoClient context.Background
    demoSite (demoWorld noon noon (.ok { StatusCode := 200, Body := "[]" })) _ ⟨_, rfl, rfl⟩

/-- C4, amended: when at most twelve entries of the response are general
forecasts, the entries with any given start time come back in the order they
have in the response. -/
theorem forecast_sort_stable_up_to_twelve (std : Std) (c : Client) (ctx : Context)
    (site : Site) (w : World) (N : Int) (body : String) (A : List Price)
    (hsent : Answered w (c.GetForecastGeneralPrices std ctx site w).2
      (.ok { StatusCode := N, Body := body }))
    (hlo : 200 ≤ N) (hhi : N < 400) (hA : std.decodePrices body = .ok A)
    (hlen : (A.filter (fun p => p.Type_ == "ForecastInterval" && p.ChannelType == "general")).length
      ≤ 12) :
    ∃ r, (c.GetForecastGeneralPrices std ctx site w).1 = .ok r ∧
      ∀ t : Int, r.filter (fun p => decide (p.StartTime.nanos = t)) =
        (A.filter (fun p => p.Type_ == "ForecastInterval" && p.ChannelType == "general")).filter
          (fun p => decide (p.StartTime.nanos = t)) := by
  have h := GetForecastGeneralPrices_answered std c ctx site w _ hsent
  have ho : outcome std std.decodePrices (.ok { StatusCode := N, Body := body }) = .ok A := by
    unfold outcome
    dsimp only
    rw [if_neg (by omega), hA]
  rw [ho] at h
  dsimp only at h
  refine ⟨_, h, ?_⟩
  intro t
  exact sort.Slice_withKey_small (fun q : Price => q.StartTime.nanos) startsBefore
    startsBefore_eq (A.filter isGeneralForecast) hlen t

/-- Witness of the amended C4: a response whose general forecasts tie two by
two (`a` and `c` at second 1800, `b` and `d` at second 3600); each pair comes
back in the order it has in the response. -/
theorem forecast_sort_stable_up_to_twelve_witness :
    (demoClient.GetForecastGeneralPrices (pricesStd tied) context.Background demoSite
        (demoWorld noon noon (.ok { StatusCode := 200, Body := "[]" }))).1 =
      .ok [demoPrice "ForecastInterval" "general" "e" 0,
        demoPrice "ForecastInterval" "general" "a" 1800,
        demoPrice "ForecastInterval" "general" "c" 1800,
        demoPrice "ForecastInterval" "general" "b" 3600,
        demoPrice "ForecastInterval" "general" "d" 3600] ∧
    ∃ r, (demoClient.GetForecastGeneralPrices (pricesStd tied) context.Background demoSite
        (demoWorld noon noon (.ok { StatusCode := 200, Body := "[]" }))).1 = .ok r ∧
      ∀ t : Int, r.filter (fun p => decide (p.StartTime.nanos = t)) =
        (tied.filter
          (fun p => p.Type_ == "ForecastInterval" && p.ChannelType == "general")).filter
          (fun p => decide (p.StartTime.nanos = t)) :=
  ⟨by decide,
    forecast_sort_stable_up_to_twelve (pricesStd tied) demoClient context.Background demoSite
      (demoWorld noon noon (.ok { StatusCode := 200, Body := "[]" })) 200 "[]" tied
      ⟨_, rfl, rfl⟩ (by decide) (by decide) rfl (by decide)⟩

theorem errors_New_Error (s : String) : (errors.New s).Error = s := rfl

theorem outcome_api_message {α : Type} (std : Std) (decodeV : String → Except error α)
    (N : Int) (body m : String) (hN : N < 200 ∨ 400 ≤ N)
    (hm : std.decodeErrorResponse body = .ok { Message := m }) :
    outcome std decodeV (.ok { StatusCode := N, Body := body }) = .error (errors.New m) := by
  unfold outcome
  dsimp only
  rw [if_pos (by omega), hm]

theorem outcome_api_unknown {α : Type} (std : Std) (decodeV : String → Except error α)
    (N : Int) (body : String) (de : error) (hN : N < 200 ∨ 400 ≤ N)
    (hm : std.decodeErrorResponse body = .error de) :
    outcome std decodeV (.ok { StatusCode := N, Body := body }) =
      .error (errors.New ("unknown error, status code: " ++ toString N)) := by
  unfold outcome
  dsimp only
  rw [if_pos (by omega), hm]

/-- C5: when the transport answers a status outside `[200, 400)` with a body
that decodes as the error shape with message `m`, `sendRequest` fails with
the error made by `errors.New(m)`, whose text is exactly `m`; and so does
each of `GetSites`, `GetCurrentPrices` and `GetForecastGeneralPrices`, as
soon as the URL it builds parses and the transport answers its request that
way. -/
theorem api_error_carries_message (std : Std) (c : Client) (ctx : Context) (site : Site)
    (w : World) {α : Type} (decodeV : String → Except error α) (req : Request) (N : Int)
    (body m : String) (hN : N < 200 ∨ 400 ≤ N)
    (hm : std.decodeErrorResponse body = .ok { Message := m }) :
    (w.transport (c.outgoing req) = .ok { StatusCode := N, Body := body } →
      (c.sendRequest std decodeV req w).1 = .error (errors.New m)) ∧
    (std.urlParse (c.BaseURL ++ "/sites") = none →
      w.transport (c.request ctx (c.BaseURL ++ "/sites")) =
        .ok { StatusCode := N, Body := body } →
      (c.GetSites std ctx w).1 = .error (errors.New m)) ∧
    (std.urlParse (c.BaseURL ++ "/sites/" ++ site.Id ++ "/prices/current?resolution=30") = none →
      w.transport (c.request ctx
          (c.BaseURL ++ "/sites/" ++ site.Id ++ "/prices/current?resolution=30")) =
        .ok { StatusCode := N, Body := body } →
      (c.GetCurrentPrices std ctx site w).1 = .error (errors.New m)) ∧
    (std.urlParse (c.forecastURL site (w.clock w.reads) (w.clock (w.reads + 1))) = none →
      w.transport (c.request ctx
          (c.forecastURL site (w.clock w.reads) (w.clock (w.reads + 1)))) =
        .ok { StatusCode := N, Body := body } →
      (c.GetForecastGeneralPrices std ctx site w).1 = .error (errors.New m)) ∧
    (errors.New m).Error = m := by
  refine ⟨fun h => ?_, fun hu h => ?_, fun hu h => ?_, fun hu h => ?_, rfl⟩
  · rw [sendRequest_eq]
    dsimp only
    rw [h, outcome_api_message std decodeV N body m hN hm]
  · rw [GetSites_sent std c ctx w hu, h, outcome_api_message std _ N body m hN hm]
  · rw [GetCurrentPrices_sent std c ctx site w hu, h, outcome_api_message std _ N body m hN hm]
  · rw [GetForecastGeneralPrices_sent std c ctx site w hu, h,
      outcome_api_message std _ N body m hN hm]

/-- Witness of C5: status 401 with the body of an invalid token, for the
request helper and for each of the three operations. -/
theorem api_error_carries_message_witness :
    (demoClient.sendRequest demoStd demoStd.decodeSites
        { Method := "GET", URL := "https://api.amber.com.au/v1/sites", Header := [],
          ctx := context.Background }
        (demoWorld noon noon (.ok { StatusCode := 401, Body := invalidTokenBody }))).1 =
      .error (errors.New "invalid token") ∧
    (demoClient.GetSites demoStd context.Background
        (demoWorld noon noon (.ok { StatusCode := 401, Body := invalidTokenBody }))).1 =
      .error (errors.New "invalid token") ∧
    (demoClient.GetCurrentPrices demoStd context.Background demoSite
        (demoWorld noon noon (.ok { StatusCode := 401, Body := invalidTokenBody }))).1 =
      .error (errors.New "invalid token") ∧
    (demoClient.GetForecastGeneralPrices demoStd context.Background demoSite
        (demoWorld noon noon (.ok { StatusCode := 401, Body := invalidTokenBody }))).1 =
      .error (errors.New "invalid token") ∧
    (errors.New "invalid token").Error = "invalid token" :=
  have h := api_error_carries_message demoStd demoClient context.Background demoSite
    (demoWorld noon noon (.ok { StatusCode := 401, Body := invalidTokenBody }))
    demoStd.decodeSites
    { Method := "GET", URL := "https://api.amber.com.au/v1/sites", Header := [],
      ctx := context.Background }
    401 invalidTokenBody "invalid token" (by decide) (by decide)
  ⟨h.1 rfl, h.2.1 rfl rfl, h.2.2.1 rfl rfl, h.2.2.2.1 rfl rfl, rfl⟩

/-- C6: when the transport answers a status `N` outside `[200, 400)` with a
body that does not decode as the error shape, `sendRequest` fails with the
error of text `unknown error, status code: ` followed by `N` in decimal,
whatever the decoding failure was; and so does each of `GetSites`,
`GetCurrentPrices` and `GetForecastGeneralPrices`, as soon as the URL it
builds parses and the transport answers its request that way. -/
theorem api_error_unknown_status (std : Std) (c : Client) (ctx : Context) (site : Site)
    (w : World) {α : Type} (decodeV : String → Except error α) (req : Request) (N : Int)
    (body : String) (de : error) (hN : N < 200 ∨ 400 ≤ N)
    (hm : std.decodeErrorResponse body = .error de) :
    (w.transport (c.outgoing req) = .ok { StatusCode := N, Body := body } →
      (c.sendRequest std decodeV req w).1 =
        .error (errors.New ("unknown error, status code: " ++ toString N))) ∧
    (std.urlParse (c.BaseURL ++ "/sites") = none →
      w.transport (c.request ctx (c.BaseURL ++ "/sites")) =
        .ok { StatusCode := N, Body := body } →
      (c.GetSites std ctx w).1 =
        .error (errors.New ("unknown error, status code: " ++ toString N))) ∧
    (std.urlParse (c.BaseURL ++ "/sites/" ++ site.Id ++ "/prices/current?resolution=30") = none →
      w.transport (c.request ctx
          (c.BaseURL ++ "/sites/" ++ site.Id ++ "/prices/current?resolution=30")) =
        .ok { StatusCode := N, Body := body } →
      (c.GetCurrentPrices std ctx site w).1 =
        .error (errors.New ("unknown error, status code: " ++ toString N))) ∧
    (std.urlParse (c.forecastURL site (w.clock w.reads) (w.clock (w.reads + 1))) = none →
      w.transport (c.request ctx
          (c.forecastURL site (w.clock w.reads) (w.clock (w.reads + 1)))) =
        .ok { StatusCode := N, Body := body } →
      (c.GetForecastGeneralPrices std ctx site w).1 =
        .error (errors.New ("unknown error, status code: " ++ toString N))) ∧
    (errors.New ("unknown error, status code: " ++ toString N)).Error =
      "unknown error, status code: " ++ toString N := by
  refine ⟨fun h => ?_, fun hu h => ?_, fun hu h => ?_, fun hu h => ?_, rfl⟩
  · rw [sendRequest_eq]
    dsimp only
    rw [h, outcome_api_unknown std decodeV N body de hN hm]
  · rw [GetSites_sent std c ctx w hu, h, outcome_api_unknown std _ N body de hN hm]
  · rw [GetCurrentPrices_sent std c ctx site w hu, h,
      outcome_api_unknown std _ N body de hN hm]
  · rw [GetForecastGeneralPrices_sent std c ctx site w hu, h,
      outcome_api_unknown std _ N body de hN hm]

/-- Witness of C6: status 500 with a body that is not JSON, for the request
helper and for each of the three operations. -/
theorem api_error_unknown_status_witness :
    (demoClient.sendRequest demoStd demoStd.decodeSites
        { Method := "GET", URL := "https://api.amber.com.au/v1/sites", Header := [],
          ctx := context.Background }
        (demoWorld noon noon (.ok { StatusCode := 500, Body := "Internal Server Error" }))).1 =
      .error (errors.New "unknown error, status code: 500") ∧
    (demoClient.GetSites demoStd context.Background
        (demoWorld noon noon (.ok { StatusCode := 500, Body := "Internal Server Error" }))).1 =
      .error (errors.New "unknown error, status code: 500") ∧
    (demoClient.GetCurrentPrices demoStd context.Background demoSite
        (demoWorld noon noon (.ok { StatusCode := 500, Body := "Internal Server Error" }))).1 =
      .error (errors.New "unknown error, status code: 500") ∧
    (demoClient.GetForecastGeneralPrices demoStd context.Background demoSite
        (demoWorld noon noon (.ok { StatusCode := 500, Body := "Internal Server Error" }))).1 =
      .error (errors.New "unknown error, status code: 500") ∧
    (errors.New "unknown error, status code: 500").Error = "unknown error, status code: 500" :=
  have h := api_error_unknown_status demoStd demoClient context.Background demoSite
    (demoWorld noon noon (.ok { StatusCode := 500, Body := "Internal Server Error" }))
    demoStd.decodeSites
    { Method := "GET", URL := "https://api.amber.com.au/v1/sites", Header := [],
      ctx := context.Background }
    500 "Internal Server Error" (.foreign "json" "invalid character") (by decide) (by decide)
  ⟨h.1 rfl, h.2.1 rfl rfl, h.2.2.1 rfl rfl, h.2.2.2.1 rfl rfl, rfl⟩

/-- C7: once the transport has answered with status `N`, `sendRequest`
returns the outcome of decoding the body into the result when
`200 ≤ N < 400` (so it fails only if that decoding fails), and fails for
every other `N`. -/
theorem status_success_range (std : Std) (c : Client) {α : Type}
    (decodeV : String → Except error α) (req : Request) (w : World) (N : Int) (body : String)
    (h : Answered w (c.sendRequest std decodeV req w).2 (.ok { StatusCode := N, Body := body })) :
    ((200 ≤ N ∧ N < 400) → (c.sendRequest std decodeV req w).1 = decodeV body) ∧
    ((N < 200 ∨ 400 ≤ N) → ∃ e, (c.sendRequest std decodeV req w).1 = .error e) := by
  rw [sendRequest_answered std c decodeV req w _ h]
  unfold outcome
  dsimp only
  constructor
  · intro hr
    rw [if_neg (by omega)]
  · intro hr
    rw [if_pos (by omega)]
    cases std.decodeErrorResponse body with
    | error de => exact ⟨_, rfl⟩
    | ok errRes => exact ⟨_, rfl⟩

/-- Witness of C7: a redirect status with a body that decodes to two sites. -/
theorem status_success_range_witness :
    (demoClient.sendRequest demoStd demoStd.decodeSites
        { Method := "GET", URL := "https://api.amber.com.au/v1/sites", Header := [],
          ctx := context.Background }
        (demoWorld noon noon (.ok { StatusCode := 302, Body := twoSitesBody }))).1 =
      .ok [{ Id := "s1", Nmi := "n1" }, { Id := "s2", Nmi := "n2" }] :=
  ((status_success_range demoStd demoClient demoStd.decodeSites
    { Method := "GET", URL := "https://api.amber.com.au/v1/sites", Header := [],
      ctx := context.Background }
    (demoWorld noon noon (.ok { StatusCode := 302, Body := twoSitesBody }))
    302 twoSitesBody
    ⟨_, rfl, rfl⟩).1 (by decide)).trans (by decide)

/-- C8: when the transport fails with `e`, `sendRequest` returns exactly `e`,
and each of `GetSites`, `GetCurrentPrices` and `GetForecastGeneralPrices`
returns no value and exactly `e`, as soon as the URL it builds parses and the
transport fails on its request that way; this holds whatever the decoders
are. -/
theorem transport_error_unchanged (std : Std) (c : Client) (ctx : Context) (site : Site)
    (w : World) {α : Type} (decodeV : String → Except error α) (req : Request) (e : error) :
    (w.transport (c.outgoing req) = .error e →
      (c.sendRequest std decodeV req w).1 = .error e) ∧
    (std.urlParse (c.BaseURL ++ "/sites") = none →
      w.transport (c.request ctx (c.BaseURL ++ "/sites")) = .error e →
      (c.GetSites std ctx w).1 = .error e) ∧
    (std.urlParse (c.BaseURL ++ "/sites/" ++ site.Id ++ "/prices/current?resolution=30") = none →
      w.transport (c.request ctx
          (c.BaseURL ++ "/sites/" ++ site.Id ++ "/prices/current?resolution=30")) = .error e →
      (c.GetCurrentPrices std ctx site w).1 = .error e) ∧
    (std.urlParse (c.forecastURL site (w.clock w.reads) (w.clock (w.reads + 1))) = none →
      w.transport (c.request ctx
          (c.forecastURL site (w.clock w.reads) (w.clock (w.reads + 1)))) = .error e →
      (c.GetForecastGeneralPrices std ctx site w).1 = .error e) := by
  refine ⟨fun h => ?_, fun hu h => ?_, fun hu h => ?_, fun hu h => ?_⟩
  · rw [sendRequest_eq]
    dsimp only
    rw [h]
    rfl
  · rw [GetSites_sent std c ctx w hu, h]; rfl
  · rw [GetCurrentPrices_sent std c ctx site w hu, h]; rfl
  · rw [GetForecastGeneralPrices_sent std c ctx site w hu, h]; rfl

/-- Witness of C8: a transport that times out, for the request helper and for
each of the three operations. -/
theorem transport_error_unchanged_witness :
    (demoClient.sendRequest (pricesStd thirteen) demoStd.decodeSites
        { Method := "GET", URL := "https://api.amber.com.au/v1/sites", Header := [],
          ctx := context.Background }
        (demoWorld noon noon (.error (.foreign "net/http" "context deadline exceeded")))).1 =
      .error (.foreign "net/http" "context deadline exceeded") ∧
    (demoClient.GetSites (pricesStd thirteen) context.Background
        (demoWorld noon noon (.error (.foreign "net/http" "context deadline exceeded")))).1 =
      .error (.foreign "net/http" "context deadline exceeded") ∧
    (demoClient.GetCurrentPrices (pricesStd thirteen) context.Background demoSite
        (demoWorld noon noon (.error (.foreign "net/http" "context deadline exceeded")))).1 =
      .error (.foreign "net/http" "context deadline exceeded") ∧
    (demoClient.GetForecastGeneralPrices (pricesStd thirteen) context.Background demoSite
        (demoWorld noon noon (.error (.foreign "net/http" "context deadline exceeded")))).1 =
      .error (.foreign "net/http" "context deadline exceeded") :=
  have h := transport_error_unchanged (pricesStd thirteen) demoClient context.Background
    demoSite (demoWorld noon noon (.error (.foreign "net/http" "context deadline exceeded")))
    demoStd.decodeSites
    { Method := "GET", URL := "https://api.amber.com.au/v1/sites", Header := [],
      ctx := context.Background }
    (.foreign "net/http" "context deadline exceeded")
  ⟨h.1 rfl, h.2.1 rfl rfl, h.2.2.1 rfl rfl, h.2.2.2 rfl rfl⟩

/-- C9: when the URL it builds parses and the transport answers its request
with a status in `[200, 400)` and a body that decodes to the array `A`,
`GetSites` returns exactly `A`, and so does `GetCurrentPrices`: same entries,
same order, nothing filtered out. -/
theorem plain_operations_return_decoded_array (std : Std) (c : Client) (ctx : Context)
    (site : Site) (w : World) (N : Int) (body : String) (hlo : 200 ≤ N) (hhi : N < 400) :
    (∀ A : List Site, std.urlParse (c.BaseURL ++ "/sites") = none →
      w.transport (c.request ctx (c.BaseURL ++ "/sites")) =
        .ok { StatusCode := N, Body := body } →
      std.decodeSites body = .ok A → (c.GetSites std ctx w).1 = .ok A) ∧
    (∀ A : List Price,
      std.urlParse (c.BaseURL ++ "/sites/" ++ site.Id ++ "/prices/current?resolution=30") =
        none →
      w.transport (c.request ctx
          (c.BaseURL ++ "/sites/" ++ site.Id ++ "/prices/current?resolution=30")) =
        .ok { StatusCode := N, Body := body } →
      std.decodePrices body = .ok A → (c.GetCurrentPrices std ctx site w).1 = .ok A) := by
  constructor
  · intro A hu h hA
    rw [GetSites_sent std c ctx w hu, h]
    unfold outcome
    dsimp only
    rw [if_neg (by omega), hA]
  · intro A hu h hA
    rw [GetCurrentPrices_sent std c ctx site w hu, h]
    unfold outcome
    dsimp only
    rw [if_neg (by omega), hA]

/-- Witness of C9: the two sites and the four current prices come back as
decoded, unfiltered and in the order of the response. -/
theorem plain_operations_return_decoded_array_witness :
    (demoClient.GetSites demoStd context.Background
        (demoWorld noon noon (.ok { StatusCode := 200, Body := twoSitesBody }))).1 =
      .ok [{ Id := "s1", Nmi := "n1" }, { Id := "s2", Nmi := "n2" }] ∧
    (demoClient.GetCurrentPrices (pricesStd mixed) context.Background demoSite
        (demoWorld noon noon (.ok { StatusCode := 200, Body := "[]" }))).1 = .ok mixed :=
  ⟨(plain_operations_return_decoded_array demoStd demoClient context.Background demoSite
      (demoWorld noon noon (.ok { StatusCode := 200, Body := twoSitesBody })) 200 twoSitesBody
      (by decide) (by decide)).1 _ rfl rfl (by decide),
    (plain_operations_return_decoded_array (pricesStd mixed) demoClient context.Background
      demoSite (demoWorld noon noon (.ok { StatusCode := 200, Body := "[]" })) 200 "[]"
      (by decide) (by decide)).2 mixed rfl rfl rfl⟩

/-- C10, as stated, fails: when the first clock read falls in the last
nanosecond of 2024-01-01 and the second one in the first nanosecond of
2024-01-02, the request carries `endDate=2024-01-03`, whereas the instant 24
hours after the first read is on 2024-01-02. -/
theorem forecast_endDate_not_from_first_read :
    (demoWorld beforeMidnight afterMidnight (.ok { StatusCode := 200, Body := "[]" })).clock 0 =
      beforeMidnight ∧
    (beforeMidnight.Add (time.Hour * 24)).Format yyyy_mm_dd = "2024-01-02" ∧
    (demoClient.GetForecastGeneralPrices demoStd context.Background demoSite
        (demoWorld beforeMidnight afterMidnight
          (.ok { StatusCode := 200, Body := "[]" }))).2.sent.map Request.URL =
      ["https://api.amber.com.au/v1/sites/s1/prices?resolution=30&startDate=2024-01-01&endDate=2024-01-03"] := by
  refine ⟨by decide, by decide, by decide⟩

/-- C10, amended: in the request built by `GetForecastGeneralPrices`,
`startDate` is the `2006-01-02` formatting of the first clock read and
`endDate` is that of the instant 24 hours after the second clock read; when
both reads give the same time, `endDate` is the formatting of the instant 24
hours after the moment of `startDate`. -/
theorem forecast_request_dates (std : Std) (c : Client) (ctx : Context) (site : Site)
    (w : World) (req : Request)
    (h : (c.GetForecastGeneralPrices std ctx site w).2.sent = w.sent ++ [req]) :
    req.URL = c.BaseURL ++ "/sites/" ++ site.Id ++ "/prices?resolution=30&startDate="
        ++ (w.clock w.reads).Format yyyy_mm_dd ++ "&endDate="
        ++ ((w.clock (w.reads + 1)).Add (time.Hour * 24)).Format yyyy_mm_dd ∧
    (w.clock (w.reads + 1) = w.clock w.reads →
      req.URL = c.BaseURL ++ "/sites/" ++ site.Id ++ "/prices?resolution=30&startDate="
        ++ (w.clock w.reads).Format yyyy_mm_dd ++ "&endDate="
        ++ ((w.clock w.reads).Add (time.Hour * 24)).Format yyyy_mm_dd) := by
  have hurl : req.URL = c.BaseURL ++ "/sites/" ++ site.Id ++ "/prices?resolution=30&startDate="
        ++ (w.clock w.reads).Format yyyy_mm_dd ++ "&endDate="
        ++ ((w.clock (w.reads + 1)).Add (time.Hour * 24)).Format yyyy_mm_dd := by
    rw [GetForecastGeneralPrices_eq] at h
    cases hreq : http.NewRequest std "GET" _ with
    | error err =>
      rw [hreq] at h
      simp at h
    | ok r0 =>
      rw [hreq] at h
      dsimp only at h
      have e := append_singleton_inj h
      rw [← e]
      unfold http.NewRequest at hreq
      split at hreq
      · cases hreq
      · cases hreq
        rfl
  exact ⟨hurl, fun hsame => by rw [hurl, hsame]⟩

/-- Witness of the amended C10: a call at noon of 2024-01-01. -/
theorem forecast_request_dates_witness :
    ({ Method := "GET",
        URL := "https://api.amber.com.au/v1/sites/s1/prices?resolution=30&startDate=2024-01-01&endDate=2024-01-02",
        Header := [("Content-Type", "application/json; charset=utf-8"),
          ("Accept", "application/json; charset=utf-8"),
          ("Authorization", "Bearer psk_example")],
        ctx := context.Background } : Request).URL =
      demoClient.BaseURL ++ "/sites/" ++ demoSite.Id ++ "/prices?resolution=30&startDate="
        ++ noon.Format yyyy_mm_dd ++ "&endDate="
        ++ (noon.Add (time.Hour * 24)).Format yyyy_mm_dd :=
  (forecast_request_dates demoStd demoClient context.Background demoSite
    (demoWorld noon noon (.ok { StatusCode := 200, Body := "[]" })) _ (by decide)).1

end amber
